import Mathlib

/-!
# telemetrics-client: the post daemon (`telempostdaemon.h`, `telempostdaemon.c`)

A shallow embedding of the post daemon's decision engine:

* the sliding-window rate limiter (`rate_limit_check`, `rate_limit_update`),
* the direct-spool window (`inside_direct_spool_window`, `start_network_bypass`),
* the spool writer (`spool_record`), the HTTP poster's result (`post_record_http`),
* the per-record pipeline (`process_staged_record`),
* the start-up (`initialize_daemon`) and one axis of the limiter over a sequence of
  records (`limiter_run`, and `gated_run` where a record whose check passed may still go
  unrecorded, as in the pipeline).

Conventions of the embedding.

* `size_t` is 64 bits wide: a `size_t` value is a `Nat` below `2 ^ 64`, and every
  `size_t` operation of the source reduces modulo `2 ^ 64` explicitly.
* `int`, `int64_t`, `long` and `time_t` values are `Int`; signed overflow is undefined
  in C and is outside the model.
* The two burst arrays have `TM_RATE_LIMIT_SLOTS = 60` slots: `Fin 60 → Nat`.  An access
  whose index falls outside `[0, 59]` is undefined in C; the embedding returns `none`.
* `save_entry_to_journal` frees a pointer it never assigned when a header lookup fails
  (lines 338-348); a run that gets there ends with `Status.undefined`.
* Everything the pipeline obtains from outside the two files (clock, parser, config
  getters, libcurl, file system) is read from a `World` value, one per run.
-/

namespace TelemPost

/-! ## Machine arithmetic -/

/-- The value of `SIZE_MAX` for a 64-bit `size_t`. -/
def SIZE_MAX : Nat := 2 ^ 64 - 1

/-- The macro `TM_RATE_LIMIT_SLOTS`, `(1 * 60)`. -/
def TM_RATE_LIMIT_SLOTS : Int := 60

/-- The macro `TM_RECORD_COUNTER`, `(1)`. -/
def TM_RECORD_COUNTER : Nat := 1

/-- Addition of two `size_t` values: it wraps modulo `2 ^ 64`. -/
def size_add (a b : Nat) : Nat := (a + b) % 2 ^ 64

/-- Conversion of an `int64_t` to `size_t`, as the usual arithmetic conversions do when
an `int64_t` meets a `size_t` in a comparison. -/
def to_size_t (x : Int) : Nat := (x % 2 ^ 64).toNat

/-- The C remainder `a % b` on `int`: it truncates towards zero. -/
def c_rem (a b : Int) : Int := Int.tmod a b

/-! ## The burst arrays -/

/-- A burst array, `size_t array[TM_RATE_LIMIT_SLOTS]`. -/
abbrev Slots := Fin 60 → Nat

/-- The slot a non-negative index lands on after `% TM_RATE_LIMIT_SLOTS`. -/
def slot (n : Nat) : Fin 60 := ⟨n % 60, Nat.mod_lt n (by decide)⟩

/-- The read `array[i]`; `none` when `i` lies outside the array. -/
def Slots.read (array : Slots) (i : Int) : Option Nat :=
  if h : 0 ≤ i ∧ i < 60 then some (array ⟨i.toNat, by omega⟩) else none

/-- The write `array[i] = v`; `none` when `i` lies outside the array. -/
def Slots.write (array : Slots) (i : Int) (v : Nat) : Option Slots :=
  if h : 0 ≤ i ∧ i < 60 then some (Function.update array ⟨i.toNat, by omega⟩ v) else none

/-- The array `initialize_rate_limit` leaves behind: every slot zero. -/
def zeroed : Slots := fun _ => 0

/-! ## `rate_limit_check` -/

/-- How the summation loop of `rate_limit_check` ends. -/
inductive CheckLoop where
  /-- The loop ran to its bound; `count` is the accumulated `size_t` sum. -/
  | finished (count : Nat)
  /-- The guard `(array[i % 60] + incValue) >= SIZE_MAX` fired: `return false`. -/
  | guard_fired
  /-- An index outside the array was read. -/
  | out_of_bounds
  deriving DecidableEq, Repr

/-- The loop `for (int i = window_start; i < window_start + window_length; i++)` of
`rate_limit_check`, with `n` iterations left, the loop variable at `i` and the
accumulator at `count`. -/
def check_loop (array : Slots) (incValue : Nat) : Nat → Int → Nat → CheckLoop
  | 0, _, count => CheckLoop.finished count
  | n + 1, i, count =>
    match array.read (c_rem i TM_RATE_LIMIT_SLOTS) with
    | none => CheckLoop.out_of_bounds
    | some v =>
      if size_add v incValue ≥ SIZE_MAX then CheckLoop.guard_fired
      else check_loop array incValue n (i + 1) (size_add count v)

/-- The local `window_start` of `rate_limit_check`. -/
def window_start (current_minute window_length : Int) : Int :=
  c_rem (TM_RATE_LIMIT_SLOTS + (current_minute - window_length + 1)) TM_RATE_LIMIT_SLOTS

/-- The function `rate_limit_check` of `telempostdaemon.h`.  The loop runs
`(window_start + window_length) - window_start` times when that is positive and not at
all otherwise.  The final comparison `count > burst_limit` is made in `size_t`. -/
def rate_limit_check (current_minute : Int) (burst_limit : Int) (window_length : Int)
    (array : Slots) (incValue : Nat) : Option Bool :=
  match check_loop array incValue window_length.toNat
      (window_start current_minute window_length) 0 with
  | CheckLoop.out_of_bounds => none
  | CheckLoop.guard_fired => some false
  | CheckLoop.finished count =>
    some (if size_add count incValue > to_size_t burst_limit then false else true)

/-! ## `rate_limit_update` -/

/-- The zeroing loop `for (int i = current_minute + 1; i < blank_slots + current_minute + 1;
i++) array[i % 60] = 0` of `rate_limit_update`, with `n` iterations left. -/
def zero_loop : Nat → Int → Slots → Option Slots
  | 0, _, array => some array
  | n + 1, i, array =>
    match array.write (c_rem i TM_RATE_LIMIT_SLOTS) 0 with
    | none => none
    | some array1 => zero_loop n (i + 1) array1

/-- The function `rate_limit_update` of `telempostdaemon.h`. -/
def rate_limit_update (current_minute : Int) (window_length : Int) (array : Slots)
    (incValue : Nat) : Option Slots :=
  let blank_slots : Int := TM_RATE_LIMIT_SLOTS - window_length
  match array.read current_minute with
  | none => none
  | some old =>
    match array.write current_minute (size_add old incValue) with
    | none => none
    | some array1 => zero_loop blank_slots.toNat (current_minute + 1) array1

/-- The function `burst_limit_enabled` of `telempostdaemon.h`. -/
def burst_limit_enabled (burst_limit : Int) : Bool :=
  if burst_limit > -1 then true else false

/-- The exact sum of the `W` slots `start, start + 1, ...` (indices modulo 60), as a
natural number. -/
def window_sum (array : Slots) (start W : Nat) : Nat :=
  ∑ i in Finset.range W, array (slot (start + i))

/-- Membership of slot `j` in the window of the `W` slots that end at minute `m`. -/
def in_window (m W : Nat) (j : Fin 60) : Prop :=
  ∃ k, k < W ∧ j = slot (60 + m - k)

/-! ## The daemon state -/

/-- The journal handle `TelemJournal` as far as the daemon touches it. -/
structure TelemJournal where
  /-- Whether `prune_entry_callback` points at `delete_record_by_id`. -/
  prune_entry_callback : Bool
  /-- The field `latest_record_id`. -/
  latest_record_id : Option String
  deriving DecidableEq, Repr

/-- The structure `TelemPostDaemon` of `telempostdaemon.h`.  The descriptors (`fd`, `wd`,
`sfd`, `pollfds`), `event_buffer` and `machine_id_override` are left out: no function
embedded here reads or writes them. -/
structure TelemPostDaemon where
  /-- The journal handle, `none` for `NULL`. -/
  record_journal : Option TelemJournal
  /-- Time of last failed post. -/
  bypass_http_post_ts : Int
  record_burst_array : Slots
  byte_burst_array : Slots
  rate_limit_enabled : Bool
  record_burst_limit : Int
  record_window_length : Int
  byte_burst_limit : Int
  byte_window_length : Int
  rate_limit_strategy : String
  is_spool_valid : Bool
  current_spool_size : Int
  record_retention_enabled : Bool
  record_server_delivery_enabled : Bool

/-- The function `inside_direct_spool_window` of `telempostdaemon.h`. -/
def inside_direct_spool_window (daemon : TelemPostDaemon) (current_time : Int) : Bool :=
  if current_time < daemon.bypass_http_post_ts + 1800 then true else false

/-- The function `start_network_bypass` of `telempostdaemon.h`; `now` is the value its
call of `time(NULL)` returns. -/
def start_network_bypass (daemon : TelemPostDaemon) (now : Int) : TelemPostDaemon :=
  { daemon with bypass_http_post_ts := now }

/-- The function `spool_strategy_selected` of `telempostdaemon.h`. -/
def spool_strategy_selected (daemon : TelemPostDaemon) : Bool :=
  if daemon.rate_limit_strategy = "spool" then true else false

/-! ## The outside world of one pipeline run -/

/-- A parsed record: what `read_record` stores in `headers` and `body`. -/
structure Record where
  headers : List String
  body : String
  deriving DecidableEq, Repr

/-- What libcurl does during one `post_record_http`. -/
inductive PostOutcome where
  /-- The call `curl_easy_init` returned `NULL`. -/
  | init_failed
  /-- The call `curl_easy_perform` returned `res` and the response code read afterwards
  is `http_response`. -/
  | performed (res : Int) (http_response : Int)
  deriving DecidableEq, Repr

/-- What the C library and the file system do during one `spool_record`. -/
inductive SpoolOutcome where
  /-- The call `asprintf` returned `-1`. -/
  | alloc_failed
  /-- The call `mkstemp` returned `-1`. -/
  | mkstemp_failed
  /-- The call `fdopen` returned `NULL`. -/
  | fdopen_failed
  /-- The file was written; `stat` gave the block count `st_blocks` (never negative), or
  failed (`none`). -/
  | written (st_blocks : Option Nat)
  deriving DecidableEq, Repr

/-- Everything one run of `process_staged_record` obtains from outside. -/
structure World where
  /-- The result of `read_record`: `none` when it returns `false`. -/
  record : Option Record
  /-- The value of `time(NULL)` at entry (`temp`). -/
  temp : Int
  /-- The field `tm_min` of `localtime(&temp)`. -/
  tm_min : Int
  /-- The value of `time(NULL)` in the direct-spool test. -/
  now_window : Int
  /-- The value of `time(NULL)` inside `start_network_bypass`. -/
  now_bypass : Int
  /-- Whether both `get_header_value` calls of `save_entry_to_journal` succeed. -/
  header_values : Bool
  /-- The value of `spool_max_size_config()`. -/
  spool_max_size : Int
  post : PostOutcome
  spool : SpoolOutcome
  /-- The macro `RECORD_SIZE_LEN` (defined in `common.h`, outside these files). -/
  RECORD_SIZE_LEN : Nat

/-- A call the pipeline makes to one of its collaborators. -/
inductive Event where
  | save_entry_to_journal (t_stamp : Int)
  | new_journal_entry (t_stamp : Int)
  | save_local_copy
  | spool_record (r : Record)
  | post_record_http (r : Record)
  deriving DecidableEq, Repr

/-! ## `post_record_http` -/

/-- The result of `post_record_http` from the point where `curl_easy_perform` has
returned `res` and `curl_easy_getinfo` has stored `http_response`. -/
def post_record_http (res : Int) (http_response : Int) : Bool :=
  let res1 : Int :=
    if res ≠ 0 then res
    else if http_response ≠ 201 ∧ http_response ≠ 200 then 1
    else res
  if res1 ≠ 0 then false else true

/-! ## `spool_record` -/

/-- What a call of `spool_record` did to the spool directory. -/
inductive SpoolFile where
  /-- Returned before `mkstemp`: no file was created. -/
  | not_created
  /-- The call `mkstemp` failed: no file was created. -/
  | create_failed
  /-- The file was created and unlinked again after `fdopen` failed. -/
  | unlinked
  /-- The file was written and stays in the spool directory. -/
  | stored
  deriving DecidableEq, Repr

/-- The outcome of `spool_record`. -/
structure SpoolRun where
  /-- Whether the call ended in `exit(EXIT_FAILURE)`. -/
  exited : Bool
  daemon : TelemPostDaemon
  file : SpoolFile

/-- The function `spool_record` of `telempostdaemon.c`. -/
def spool_record (daemon : TelemPostDaemon) (w : World) : SpoolRun :=
  if !daemon.is_spool_valid then ⟨false, daemon, SpoolFile.not_created⟩
  else
    let max_spool_size := w.spool_max_size
    if max_spool_size ≠ -1 ∧ daemon.current_spool_size < 0 then
      ⟨false, daemon, SpoolFile.not_created⟩
    else if max_spool_size ≠ -1 ∧ daemon.current_spool_size ≥ max_spool_size * 1024 then
      ⟨false, daemon, SpoolFile.not_created⟩
    else
      match w.spool with
      | SpoolOutcome.alloc_failed => ⟨true, daemon, SpoolFile.not_created⟩
      | SpoolOutcome.mkstemp_failed => ⟨false, daemon, SpoolFile.create_failed⟩
      | SpoolOutcome.fdopen_failed => ⟨false, daemon, SpoolFile.unlinked⟩
      | SpoolOutcome.written none => ⟨false, daemon, SpoolFile.stored⟩
      | SpoolOutcome.written (some st_blocks) =>
        ⟨false,
          { daemon with current_spool_size := daemon.current_spool_size + (st_blocks : Int) * 512 },
          SpoolFile.stored⟩

/-! ## `process_staged_record` -/

/-- How a run of `process_staged_record` ends. -/
inductive Status where
  /-- The function returned `ret`. -/
  | returned (ret : Bool)
  /-- The process ended in `exit(EXIT_FAILURE)`. -/
  | exited
  /-- The run has undefined behaviour: a burst array was accessed outside its 60 slots, or
  `free` was called on a pointer that was never assigned. -/
  | undefined
  deriving DecidableEq, Repr

/-- The outcome of a run: how it ended, the daemon structure at that point and the
collaborator calls made, in order. -/
structure Run where
  status : Status
  daemon : TelemPostDaemon
  trace : List Event

/-- The calls made by lines 381-385 when both header lookups of `save_entry_to_journal`
succeed: `save_entry_to_journal` with its `new_journal_entry` and, when retention is
enabled, `save_local_copy`. -/
def retention_calls (daemon : TelemPostDaemon) (w : World) : List Event :=
  [Event.save_entry_to_journal w.temp, Event.new_journal_entry w.temp]
    ++ (if daemon.record_retention_enabled then [Event.save_local_copy] else [])

/-- The check flags of `process_staged_record`. -/
structure Flags where
  record_check_passed : Bool
  byte_check_passed : Bool
  record_burst_enabled : Bool
  byte_burst_enabled : Bool
  deriving DecidableEq, Repr

/-- The block `if (daemon->rate_limit_enabled) { ... }` of `process_staged_record`
(lines 409-428): the flags it leaves and the daemon structure after it; `none` when a
check reads outside its array. -/
def rate_limit_stage (daemon : TelemPostDaemon) (w : World) :
    Option (Flags × TelemPostDaemon) :=
  if daemon.rate_limit_enabled then
    let record_burst_enabled := burst_limit_enabled daemon.record_burst_limit
    let byte_burst_enabled := burst_limit_enabled daemon.byte_burst_limit
    let record_check : Option Bool :=
      if record_burst_enabled then
        rate_limit_check w.tm_min daemon.record_burst_limit daemon.record_window_length
          daemon.record_burst_array TM_RECORD_COUNTER
      else some true
    match record_check with
    | none => none
    | some record_check_passed =>
      let byte_check : Option Bool :=
        if byte_burst_enabled then
          rate_limit_check w.tm_min daemon.byte_burst_limit daemon.byte_window_length
            daemon.byte_burst_array w.RECORD_SIZE_LEN
        else some true
      match byte_check with
      | none => none
      | some byte_check_passed =>
        let daemon1 : TelemPostDaemon :=
          if !record_burst_enabled && !byte_burst_enabled then
            { daemon with rate_limit_enabled := false }
          else daemon
        some (⟨record_check_passed, byte_check_passed, record_burst_enabled,
          byte_burst_enabled⟩, daemon1)
  else some (⟨true, true, true, true⟩, daemon)

/-- The counter updates of the final `else` branch of `process_staged_record`
(lines 449-456); `none` when an update writes outside its array. -/
def update_stage (daemon : TelemPostDaemon) (w : World) (f : Flags) :
    Option TelemPostDaemon :=
  let record_array : Option Slots :=
    if f.record_burst_enabled then
      rate_limit_update w.tm_min daemon.record_window_length daemon.record_burst_array
        TM_RECORD_COUNTER
    else some daemon.record_burst_array
  match record_array with
  | none => none
  | some ra =>
    let byte_array : Option Slots :=
      if f.byte_burst_enabled then
        rate_limit_update w.tm_min daemon.byte_window_length daemon.byte_burst_array
          w.RECORD_SIZE_LEN
      else some daemon.byte_burst_array
    match byte_array with
    | none => none
    | some ba => some { daemon with record_burst_array := ra, byte_burst_array := ba }

/-- The part of `process_staged_record` from the strategy lookup on (lines 435-457),
entered with `record_sent` decided and the trace `tr` so far. -/
def dispatch (daemon : TelemPostDaemon) (w : World) (r : Record) (f : Flags)
    (record_sent : Bool) (tr : List Event) : Run :=
  let do_spool := spool_strategy_selected daemon
  if !record_sent && !do_spool then ⟨Status.returned true, daemon, tr⟩
  else if !record_sent && do_spool then
    let sp := spool_record (start_network_bypass daemon w.now_bypass) w
    ⟨if sp.exited then Status.exited else Status.returned true, sp.daemon,
      tr ++ [Event.spool_record r]⟩
  else
    match update_stage daemon w f with
    | none => ⟨Status.undefined, daemon, tr⟩
    | some daemon1 => ⟨Status.returned true, daemon1, tr⟩

/-- The function `process_staged_record` of `telempostdaemon.c`.  The local `ret` holds
the result of `read_record` from line 374 on, and no later statement changes its value
(line 393 stores `true` over `true`).  When a header lookup of `save_entry_to_journal`
fails, that function (lines 338-348) passes `event_id_value`, which was never assigned,
to `free`: the run is undefined from there on. -/
def process_staged_record (daemon : TelemPostDaemon) (w : World) : Run :=
  match w.record with
  | none => ⟨Status.returned false, daemon, []⟩
  | some r =>
    if !w.header_values then
      ⟨Status.undefined, daemon, [Event.save_entry_to_journal w.temp]⟩
    else
      let tr := retention_calls daemon w
      if !daemon.record_server_delivery_enabled then ⟨Status.returned true, daemon, tr⟩
      else if inside_direct_spool_window daemon w.now_window then
        let sp := spool_record daemon w
        ⟨if sp.exited then Status.exited else Status.returned true, sp.daemon,
          tr ++ [Event.spool_record r]⟩
      else if daemon.record_window_length = -1 ∨ daemon.byte_window_length = -1 then
        ⟨Status.exited, daemon, tr⟩
      else
        match rate_limit_stage daemon w with
        | none => ⟨Status.undefined, daemon, tr⟩
        | some (f, daemon1) =>
          if !daemon1.rate_limit_enabled
              || (f.record_check_passed && f.byte_check_passed) then
            match w.post with
            | PostOutcome.init_failed =>
              ⟨Status.exited, daemon1, tr ++ [Event.post_record_http r]⟩
            | PostOutcome.performed res http_response =>
              dispatch daemon1 w r f (post_record_http res http_response)
                (tr ++ [Event.post_record_http r])
          else dispatch daemon1 w r f false tr

/-! ## The event loop's effect on the daemon structure -/

/-- Whether `post_record_http` was called. -/
def posted (tr : List Event) : Bool :=
  tr.any fun e => match e with
    | Event.post_record_http _ => true
    | _ => false

/-- Whether `spool_record` was called. -/
def spooled (tr : List Event) : Bool :=
  tr.any fun e => match e with
    | Event.spool_record _ => true
    | _ => false

/-- Whether `post_record_http` was called and returned `true`. -/
def sent (w : World) (tr : List Event) : Prop :=
  posted tr = true ∧ ∃ res http_response,
    w.post = PostOutcome.performed res http_response ∧ post_record_http res http_response = true

/-- Whether `post_record_http` was called and returned `false`. -/
def send_failed (w : World) (tr : List Event) : Prop :=
  posted tr = true ∧ ∃ res http_response,
    w.post = PostOutcome.performed res http_response ∧ post_record_http res http_response = false

/-- The record-axis check exactly as `process_staged_record` calls it (line 415). -/
def record_check (daemon : TelemPostDaemon) (w : World) : Option Bool :=
  rate_limit_check w.tm_min daemon.record_burst_limit daemon.record_window_length
    daemon.record_burst_array TM_RECORD_COUNTER

/-- The byte-axis check exactly as `process_staged_record` calls it (line 420). -/
def byte_check (daemon : TelemPostDaemon) (w : World) : Option Bool :=
  rate_limit_check w.tm_min daemon.byte_burst_limit daemon.byte_window_length
    daemon.byte_burst_array w.RECORD_SIZE_LEN

/-- The pre-checks of `spool_record` that end the call before a file is created. -/
def spool_blocked (daemon : TelemPostDaemon) (w : World) : Prop :=
  daemon.is_spool_valid = false ∨
    (w.spool_max_size ≠ -1 ∧
      (daemon.current_spool_size < 0 ∨ daemon.current_spool_size ≥ w.spool_max_size * 1024))

/-! ## Sample data -/

/-- A one-header record. -/
def sample_record : Record := ⟨["classification: org/test/probe"], "payload"⟩

/-- A freshly initialised daemon: limiter on with 10 records and 1000000 bytes per 5
minutes, strategy "spool", retention and delivery on. -/
def sample_daemon : TelemPostDaemon where
  record_journal := some ⟨true, none⟩
  bypass_http_post_ts := 0
  record_burst_array := zeroed
  byte_burst_array := zeroed
  rate_limit_enabled := true
  record_burst_limit := 10
  record_window_length := 5
  byte_burst_limit := 1000000
  byte_window_length := 5
  rate_limit_strategy := "spool"
  is_spool_valid := true
  current_spool_size := 0
  record_retention_enabled := true
  record_server_delivery_enabled := true

/-- A run at second 1000000, minute 46, in which the collector answers 201 and a spool
write would take 8 blocks. -/
def sample_world : World where
  record := some sample_record
  temp := 1000000
  tm_min := 46
  now_window := 1000000
  now_bypass := 1000003
  header_values := true
  spool_max_size := 1024
  post := PostOutcome.performed 0 201
  spool := SpoolOutcome.written (some 8)
  RECORD_SIZE_LEN := 4

/-- The array of the C2 counterexample: `2 ^ 63` in slots 58 and 59, zero elsewhere. -/
def wrap_array : Slots := fun i => if i.val = 58 ∨ i.val = 59 then 2 ^ 63 else 0

/-- The world of `sample_world` with a staged file that `read_record` rejects. -/
def unreadable_world : World := { sample_world with record := none }

/-- The world of `sample_world` with a record whose header values `get_header_value` does
not find. -/
def headerless_world : World := { sample_world with header_values := false }

/-- The world of `sample_world` with a collector that answers 500. -/
def failing_world : World := { sample_world with post := PostOutcome.performed 0 500 }

/-- The sample daemon with strategy "drop". -/
def drop_daemon : TelemPostDaemon := { sample_daemon with rate_limit_strategy := "drop" }

/-- The sample daemon with a record limit of zero, so that the record check rejects
every record. -/
def limited_daemon : TelemPostDaemon := { sample_daemon with record_burst_limit := 0 }

/-- The sample daemon 1000 seconds after a failed post. -/
def bypassing_daemon : TelemPostDaemon := { sample_daemon with bypass_http_post_ts := 999000 }

/-- An array that holds `i + 1` in slot `i`. -/
def ramp_array : Slots := fun i => i.val + 1

/-- An array that holds `SIZE_MAX` in slot 3 and zero elsewhere. -/
def full_array : Slots := fun i => if i.val = 3 then SIZE_MAX else 0

/-! ## `initialize_daemon` -/

/-- The values the configuration getters (`rate_limit_enabled_config()` and the others)
return. -/
structure Config where
  rate_limit_enabled : Bool
  record_burst_limit : Int
  record_window_length : Int
  byte_burst_limit : Int
  byte_window_length : Int
  rate_limit_strategy : String
  record_retention_enabled : Bool
  record_server_delivery_enabled : Bool

/-- What `initialize_daemon` obtains from outside besides the configuration. -/
structure Startup where
  /-- The value of `is_spool_valid()`. -/
  is_spool_valid : Bool
  /-- The journal `open_journal(JOURNAL_PATH)` returns, `none` for `NULL`. -/
  open_journal : Option TelemJournal
  /-- Whether every call made by `initialize_signals` succeeds. -/
  signals : Bool

/-- The function `initialize_rate_limit` of `telempostdaemon.c`. -/
def initialize_rate_limit (daemon : TelemPostDaemon) (cfg : Config) : TelemPostDaemon :=
  { daemon with
    record_burst_array := zeroed
    byte_burst_array := zeroed
    rate_limit_enabled := cfg.rate_limit_enabled
    record_burst_limit := cfg.record_burst_limit
    record_window_length := cfg.record_window_length
    byte_burst_limit := cfg.byte_burst_limit
    byte_window_length := cfg.byte_window_length
    rate_limit_strategy := cfg.rate_limit_strategy }

/-- The function `initialize_record_delivery` of `telempostdaemon.c`. -/
def initialize_record_delivery (daemon : TelemPostDaemon) (cfg : Config) : TelemPostDaemon :=
  { daemon with
    record_retention_enabled := cfg.record_retention_enabled
    record_server_delivery_enabled := cfg.record_server_delivery_enabled }

/-- The function `initialize_daemon` of `telempostdaemon.c`, statement by statement;
`none` when `initialize_signals` ends the process.  The test of line 117 reads
`daemon->record_retention_enabled` as the caller left it: `initialize_record_delivery`
stores the configured value only at line 130. -/
def initialize_daemon (daemon : TelemPostDaemon) (cfg : Config) (st : Startup) :
    Option TelemPostDaemon :=
  let daemon1 := { daemon with bypass_http_post_ts := 0 }
  let daemon2 := { daemon1 with is_spool_valid := st.is_spool_valid }
  let daemon3 := { daemon2 with record_journal := st.open_journal }
  let daemon4 : TelemPostDaemon :=
    match daemon3.record_journal with
    | some journal =>
      if daemon3.record_retention_enabled then
        { daemon3 with record_journal := some { journal with prune_entry_callback := true } }
      else daemon3
    | none => daemon3
  if st.signals then
    let daemon5 := initialize_rate_limit daemon4 cfg
    let daemon6 := initialize_record_delivery daemon5 cfg
    some { daemon6 with current_spool_size := 0 }
  else none

/-- Whether the daemon's journal is open with `prune_entry_callback` set to
`delete_record_by_id`. -/
def callback_armed (daemon : TelemPostDaemon) : Bool :=
  match daemon.record_journal with
  | some journal => journal.prune_entry_callback
  | none => false

/-! ## The limiter over a sequence of records -/

/-- The state of one axis of the limiter while records are processed: its burst array and,
as a ghost, the absolute minutes of the records accepted so far, latest first. -/
structure Limiter where
  array : Slots
  accepted : List Nat

/-- One record at absolute minute `t` on one axis, as `process_staged_record` treats a
record that is posted when the check passes: `rate_limit_check` at slot `t mod 60`, and
`rate_limit_update` at the same slot when it passed.  `none` when an index leaves the
array. -/
def limiter_step (W : Nat) (limit : Int) (inc : Nat) (s : Limiter) (t : Nat) :
    Option Limiter :=
  match rate_limit_check ((t % 60 : Nat) : Int) limit (W : Int) s.array inc with
  | none => none
  | some false => some s
  | some true =>
    match rate_limit_update ((t % 60 : Nat) : Int) (W : Int) s.array inc with
    | none => none
    | some array1 => some ⟨array1, t :: s.accepted⟩

/-- The records at the absolute minutes `ts`, processed in order. -/
def limiter_run (W : Nat) (limit : Int) (inc : Nat) : Limiter → List Nat → Option Limiter
  | s, [] => some s
  | s, t :: ts =>
    match limiter_step W limit inc s t with
    | none => none
    | some s1 => limiter_run W limit inc s1 ts

/-- The limiter as `initialize_rate_limit` leaves it. -/
def Limiter.initial : Limiter := ⟨zeroed, []⟩

/-- One record of the pipeline at absolute minute `t`, seen from one axis of the limiter.
The flag `goes` tells whether the rest of the pipeline lets a record through once its
check on this axis has passed: the other axis does not reject it and `post_record_http`
returns `true` (lines 431-457).  The record is recorded by `rate_limit_update`, and
thereby accepted, only when the check passed and `goes` holds; in every other case the
array is left as it was.  `none` when an index leaves the array. -/
def gated_step (W : Nat) (limit : Int) (inc : Nat) (s : Limiter) (t : Nat) (goes : Bool) :
    Option Limiter :=
  match rate_limit_check ((t % 60 : Nat) : Int) limit (W : Int) s.array inc with
  | none => none
  | some false => some s
  | some true =>
    if goes then
      match rate_limit_update ((t % 60 : Nat) : Int) (W : Int) s.array inc with
      | none => none
      | some array1 => some ⟨array1, t :: s.accepted⟩
    else some s

/-- The records `(t, goes)` of the pipeline, processed in order on one axis. -/
def gated_run (W : Nat) (limit : Int) (inc : Nat) :
    Limiter → List (Nat × Bool) → Option Limiter
  | s, [] => some s
  | s, r :: rs =>
    match gated_step W limit inc s r.1 r.2 with
    | none => none
    | some s1 => gated_run W limit inc s1 rs

/-- Whether no `size_t` addition wraps while the records are processed: at each record
the exact sum of the window plus `inc` fits a `size_t`. -/
def no_overflow (W : Nat) (limit : Int) (inc : Nat) :
    Limiter → List (Nat × Bool) → Bool
  | _, [] => true
  | s, r :: rs =>
    decide (window_sum s.array ((60 + r.1 % 60 - W + 1) % 60) W + inc < 2 ^ 64) &&
      (match gated_step W limit inc s r.1 r.2 with
        | none => true
        | some s1 => no_overflow W limit inc s1 rs)

/-- The number of records accepted at minutes in `(t - W, t]`. -/
def accepted_in_window (accepted : List Nat) (W t : Nat) : Nat :=
  (accepted.filter fun a => decide (t < a + W ∧ a ≤ t)).length

/-! ## The loops with their own tests -/

/-- The summation loop of `rate_limit_check` with its test `i < hi` and a budget of
`fuel` evaluations of that test: its result and the array indices it used, in order, one
for every execution of the body; `none` when the budget runs out. -/
def check_loop_guarded (array : Slots) (incValue : Nat) (hi : Int) :
    Nat → Int → Nat → List Int → Option (CheckLoop × List Int)
  | 0, _, _, _ => none
  | fuel + 1, i, count, used =>
    if i < hi then
      match array.read (c_rem i TM_RATE_LIMIT_SLOTS) with
      | none => some (CheckLoop.out_of_bounds, used ++ [c_rem i TM_RATE_LIMIT_SLOTS])
      | some v =>
        if size_add v incValue ≥ SIZE_MAX then
          some (CheckLoop.guard_fired, used ++ [c_rem i TM_RATE_LIMIT_SLOTS])
        else
          check_loop_guarded array incValue hi fuel (i + 1) (size_add count v)
            (used ++ [c_rem i TM_RATE_LIMIT_SLOTS])
    else some (CheckLoop.finished count, used)

/-- The zeroing loop of `rate_limit_update` with its test `i < hi` and a budget of `fuel`
evaluations of that test: the array it leaves (`none` when an index leaves the array) and
the array indices it used, in order; `none` when the budget runs out. -/
def zero_loop_guarded (hi : Int) : Nat → Int → Slots → List Int →
    Option (Option Slots × List Int)
  | 0, _, _, _ => none
  | fuel + 1, i, array, used =>
    if i < hi then
      match array.write (c_rem i TM_RATE_LIMIT_SLOTS) 0 with
      | none => some (none, used ++ [c_rem i TM_RATE_LIMIT_SLOTS])
      | some array1 =>
        zero_loop_guarded hi fuel (i + 1) array1 (used ++ [c_rem i TM_RATE_LIMIT_SLOTS])
    else some (some array, used)

/-! ## Sample data for the limiter and the start-up -/

/-- A daemon structure in static storage before `initialize_daemon`: every field zero. -/
def blank_daemon : TelemPostDaemon where
  record_journal := none
  bypass_http_post_ts := 0
  record_burst_array := zeroed
  byte_burst_array := zeroed
  rate_limit_enabled := false
  record_burst_limit := 0
  record_window_length := 0
  byte_burst_limit := 0
  byte_window_length := 0
  rate_limit_strategy := ""
  is_spool_valid := false
  current_spool_size := 0
  record_retention_enabled := false
  record_server_delivery_enabled := false

/-- A configuration with retention and delivery on. -/
def sample_config : Config where
  rate_limit_enabled := true
  record_burst_limit := 10
  record_window_length := 5
  byte_burst_limit := 1000000
  byte_window_length := 5
  rate_limit_strategy := "spool"
  record_retention_enabled := true
  record_server_delivery_enabled := true

/-- A start-up in which the journal opens, with no callback set yet. -/
def sample_startup : Startup where
  is_spool_valid := true
  open_journal := some ⟨false, none⟩
  signals := true

/-- An array that holds `SIZE_MAX - 1` in slot 59 and zero elsewhere. -/
def brim_array : Slots := fun i => if i.val = 59 then SIZE_MAX - 1 else 0

/-! # Lemmas -/

/-! ## The rate limiter -/

theorem slot_val (n : Nat) : (slot n).val = n % 60 := rfl

theorem c_rem_nat (s : Nat) : c_rem (s : Int) TM_RATE_LIMIT_SLOTS = ((s % 60 : Nat) : Int) := by
  unfold c_rem TM_RATE_LIMIT_SLOTS
  rw [Int.tmod_eq_emod (by omega) (by decide)]
  omega

theorem read_nat (array : Slots) (s : Nat) :
    array.read (c_rem (s : Int) TM_RATE_LIMIT_SLOTS) = some (array (slot s)) := by
  rw [c_rem_nat]
  unfold Slots.read
  have h : (0 : Int) ≤ ((s % 60 : Nat) : Int) ∧ ((s % 60 : Nat) : Int) < 60 := by omega
  rw [dif_pos h]
  rfl

theorem write_nat (array : Slots) (s : Nat) (v : Nat) :
    array.write (c_rem (s : Int) TM_RATE_LIMIT_SLOTS) v
      = some (Function.update array (slot s) v) := by
  rw [c_rem_nat]
  unfold Slots.write
  have h : (0 : Int) ≤ ((s % 60 : Nat) : Int) ∧ ((s % 60 : Nat) : Int) < 60 := by omega
  rw [dif_pos h]
  rfl

theorem window_sum_succ (array : Slots) (s n : Nat) :
    window_sum array s (n + 1) = array (slot s) + window_sum array (s + 1) n := by
  unfold window_sum
  rw [Finset.sum_range_succ']
  simp only [Nat.add_zero]
  rw [Nat.add_comm]
  congr 1
  apply Finset.sum_congr rfl
  intro i _
  congr 2
  omega

/-- While no guard fires, the summation loop finishes with the `size_t` sum of the
slots it visited. -/
theorem check_loop_finished (array : Slots) (incValue : Nat) :
    ∀ (n s count : Nat), count < 2 ^ 64 →
      (∀ k, k < n → size_add (array (slot (s + k))) incValue < SIZE_MAX) →
      check_loop array incValue n (s : Int) count
        = CheckLoop.finished ((count + window_sum array s n) % 2 ^ 64) := by
  intro n
  induction n with
  | zero =>
    intro s count hc _
    have hc2 : count % 2 ^ 64 = count := Nat.mod_eq_of_lt hc
    simp only [check_loop, window_sum, Finset.range_zero, Finset.sum_empty, Nat.add_zero, hc2]
  | succ n ih =>
    intro s count hc hg
    have h0 := hg 0 (Nat.succ_pos n)
    rw [Nat.add_zero] at h0
    rw [check_loop, read_nat]
    simp only
    rw [if_neg (by omega)]
    have hs : ((s : Int) + 1) = ((s + 1 : Nat) : Int) := by push_cast; rfl
    rw [hs, ih (s + 1) (size_add count (array (slot s))) (Nat.mod_lt _ (by decide))
      (fun k hk => by
        have := hg (k + 1) (by omega)
        rwa [show s + (k + 1) = s + 1 + k by omega] at this)]
    rw [window_sum_succ]
    unfold size_add
    congr 1
    rw [Nat.mod_add_mod, Nat.add_assoc]

theorem window_start_nat (m W : Nat) (hm : m < 60) (hW : W ≤ 60) :
    window_start (m : Int) (W : Int) = (((60 + m - W + 1) % 60 : Nat) : Int) := by
  unfold window_start
  have h : TM_RATE_LIMIT_SLOTS + ((m : Int) - (W : Int) + 1) = ((60 + m - W + 1 : Nat) : Int) := by
    unfold TM_RATE_LIMIT_SLOTS
    omega
  rw [h, c_rem_nat]

theorem to_size_t_nonneg (x : Int) (h0 : 0 ≤ x) (h1 : x < 2 ^ 63) : to_size_t x = x.toNat := by
  unfold to_size_t
  congr 1
  omega

/-- The zeroing loop started at a non-negative index clears exactly the `n` slots it
visits and leaves the others alone. -/
theorem zero_loop_nat : ∀ (n s : Nat) (array : Slots),
    ∃ array1, zero_loop n (s : Int) array = some array1 ∧
      ∀ j, array1 j = if ∃ k, k < n ∧ j = slot (s + k) then 0 else array j := by
  intro n
  induction n with
  | zero =>
    intro s array
    refine ⟨array, rfl, fun j => ?_⟩
    rw [if_neg]
    rintro ⟨k, hk, _⟩
    omega
  | succ n ih =>
    intro s array
    rw [zero_loop, write_nat]
    simp only
    have hs : ((s : Int) + 1) = ((s + 1 : Nat) : Int) := by push_cast; rfl
    rw [hs]
    obtain ⟨a1, h1, h2⟩ := ih (s + 1) (Function.update array (slot s) 0)
    refine ⟨a1, h1, fun j => ?_⟩
    rw [h2 j]
    by_cases hj : ∃ k, k < n ∧ j = slot (s + 1 + k)
    · obtain ⟨k, hk, hjk⟩ := hj
      rw [if_pos ⟨k, hk, hjk⟩, if_pos ⟨k + 1, by omega, by rw [hjk]; congr 1; omega⟩]
    · rw [if_neg hj]
      by_cases hjs : j = slot s
      · rw [if_pos ⟨0, by omega, by simpa using hjs⟩, hjs, Function.update_same]
      · rw [Function.update_noteq hjs, if_neg]
        rintro ⟨k, hk, hjk⟩
        cases k with
        | zero => exact hjs (by simpa using hjk)
        | succ k => exact hj ⟨k, by omega, by rw [hjk]; congr 1; omega⟩

theorem read_in_range (array : Slots) (m : Nat) (hm : m < 60) :
    array.read (m : Int) = some (array (slot m)) := by
  unfold Slots.read
  have h : (0 : Int) ≤ (m : Int) ∧ (m : Int) < 60 := by omega
  rw [dif_pos h]
  congr 2
  apply Fin.ext
  simp [slot, Nat.mod_eq_of_lt hm]

theorem write_in_range (array : Slots) (m : Nat) (hm : m < 60) (v : Nat) :
    array.write (m : Int) v = some (Function.update array (slot m) v) := by
  unfold Slots.write
  have h : (0 : Int) ≤ (m : Int) ∧ (m : Int) < 60 := by omega
  rw [dif_pos h]
  have e : (⟨(m : Int).toNat, by omega⟩ : Fin 60) = slot m := by
    apply Fin.ext
    simp [slot, Nat.mod_eq_of_lt hm]
  rw [e]

/-- The slots after `m` that the update clears are the complement of the window. -/
theorem cleared_iff_not_in_window (m W : Nat) (hm : m < 60) (hW1 : 1 ≤ W) (hW : W ≤ 60)
    (j : Fin 60) :
    (∃ k, k < 60 - W ∧ j = slot (m + 1 + k)) ↔ ¬ in_window m W j := by
  unfold in_window
  have hj := j.isLt
  constructor
  · rintro ⟨k, hk, hjk⟩ ⟨k2, hk2, hjk2⟩
    have e1 : j.val = (m + 1 + k) % 60 := by rw [hjk]; rfl
    have e2 : j.val = (60 + m - k2) % 60 := by rw [hjk2]; rfl
    omega
  · intro hn
    refine ⟨(j.val + 60 - m - 1) % 60, ?_, ?_⟩
    · by_contra hlt
      apply hn
      refine ⟨(m + 60 - j.val) % 60, ?_, ?_⟩
      · omega
      · apply Fin.ext
        show j.val = (60 + m - (m + 60 - j.val) % 60) % 60
        omega
    · apply Fin.ext
      show j.val = (m + 1 + (j.val + 60 - m - 1) % 60) % 60
      omega

/-! ## The paths of `process_staged_record` -/

theorem process_read_failed (daemon : TelemPostDaemon) (w : World) (hr : w.record = none) :
    process_staged_record daemon w = ⟨Status.returned false, daemon, []⟩ := by
  unfold process_staged_record
  rw [hr]

theorem process_header_undefined (daemon : TelemPostDaemon) (w : World) (r : Record)
    (hr : w.record = some r) (hh : w.header_values = false) :
    process_staged_record daemon w
      = ⟨Status.undefined, daemon, [Event.save_entry_to_journal w.temp]⟩ := by
  unfold process_staged_record
  rw [hr]
  simp [hh]

theorem process_delivery_disabled (daemon : TelemPostDaemon) (w : World) (r : Record)
    (hr : w.record = some r) (hh : w.header_values = true)
    (hd : daemon.record_server_delivery_enabled = false) :
    process_staged_record daemon w
      = ⟨Status.returned true, daemon, retention_calls daemon w⟩ := by
  unfold process_staged_record
  rw [hr]
  simp [hh, hd]

theorem process_direct_spool (daemon : TelemPostDaemon) (w : World) (r : Record)
    (hr : w.record = some r) (hh : w.header_values = true)
    (hd : daemon.record_server_delivery_enabled = true)
    (hw : inside_direct_spool_window daemon w.now_window = true) :
    process_staged_record daemon w
      = ⟨if (spool_record daemon w).exited then Status.exited else Status.returned true,
          (spool_record daemon w).daemon,
          retention_calls daemon w ++ [Event.spool_record r]⟩ := by
  unfold process_staged_record
  rw [hr]
  simp [hh, hd, hw]

theorem process_window_invalid (daemon : TelemPostDaemon) (w : World) (r : Record)
    (hr : w.record = some r) (hh : w.header_values = true)
    (hd : daemon.record_server_delivery_enabled = true)
    (hw : inside_direct_spool_window daemon w.now_window = false)
    (hl : daemon.record_window_length = -1 ∨ daemon.byte_window_length = -1) :
    process_staged_record daemon w = ⟨Status.exited, daemon, retention_calls daemon w⟩ := by
  unfold process_staged_record
  rw [hr]
  simp only [hh, hd, hw, Bool.not_true, Bool.false_eq_true, if_false, if_pos hl]

theorem process_check_undefined (daemon : TelemPostDaemon) (w : World) (r : Record)
    (hr : w.record = some r) (hh : w.header_values = true)
    (hd : daemon.record_server_delivery_enabled = true)
    (hw : inside_direct_spool_window daemon w.now_window = false)
    (hl : ¬ (daemon.record_window_length = -1 ∨ daemon.byte_window_length = -1))
    (hs : rate_limit_stage daemon w = none) :
    process_staged_record daemon w = ⟨Status.undefined, daemon, retention_calls daemon w⟩ := by
  unfold process_staged_record
  rw [hr]
  simp only [hh, hd, hw, Bool.not_true, Bool.false_eq_true, if_false, if_neg hl, hs]

theorem process_not_posted (daemon : TelemPostDaemon) (w : World) (r : Record)
    (f : Flags) (daemon1 : TelemPostDaemon)
    (hr : w.record = some r) (hh : w.header_values = true)
    (hd : daemon.record_server_delivery_enabled = true)
    (hw : inside_direct_spool_window daemon w.now_window = false)
    (hl : ¬ (daemon.record_window_length = -1 ∨ daemon.byte_window_length = -1))
    (hs : rate_limit_stage daemon w = some (f, daemon1))
    (hc : (!daemon1.rate_limit_enabled || (f.record_check_passed && f.byte_check_passed))
      = false) :
    process_staged_record daemon w
      = dispatch daemon1 w r f false (retention_calls daemon w) := by
  unfold process_staged_record
  rw [hr]
  simp only [hh, hd, hw, Bool.not_true, Bool.false_eq_true, if_false, if_neg hl, hs, hc]

theorem process_post_init_failed (daemon : TelemPostDaemon) (w : World) (r : Record)
    (f : Flags) (daemon1 : TelemPostDaemon)
    (hr : w.record = some r) (hh : w.header_values = true)
    (hd : daemon.record_server_delivery_enabled = true)
    (hw : inside_direct_spool_window daemon w.now_window = false)
    (hl : ¬ (daemon.record_window_length = -1 ∨ daemon.byte_window_length = -1))
    (hs : rate_limit_stage daemon w = some (f, daemon1))
    (hc : (!daemon1.rate_limit_enabled || (f.record_check_passed && f.byte_check_passed))
      = true)
    (hp : w.post = PostOutcome.init_failed) :
    process_staged_record daemon w
      = ⟨Status.exited, daemon1, retention_calls daemon w ++ [Event.post_record_http r]⟩ := by
  unfold process_staged_record
  rw [hr]
  simp only [hh, hd, hw, Bool.not_true, Bool.false_eq_true, if_false, if_neg hl, hs, hc, if_true,
    hp]

theorem process_posted (daemon : TelemPostDaemon) (w : World) (r : Record)
    (f : Flags) (daemon1 : TelemPostDaemon) (res http_response : Int)
    (hr : w.record = some r) (hh : w.header_values = true)
    (hd : daemon.record_server_delivery_enabled = true)
    (hw : inside_direct_spool_window daemon w.now_window = false)
    (hl : ¬ (daemon.record_window_length = -1 ∨ daemon.byte_window_length = -1))
    (hs : rate_limit_stage daemon w = some (f, daemon1))
    (hc : (!daemon1.rate_limit_enabled || (f.record_check_passed && f.byte_check_passed))
      = true)
    (hp : w.post = PostOutcome.performed res http_response) :
    process_staged_record daemon w
      = dispatch daemon1 w r f (post_record_http res http_response)
          (retention_calls daemon w ++ [Event.post_record_http r]) := by
  unfold process_staged_record
  rw [hr]
  simp only [hh, hd, hw, Bool.not_true, Bool.false_eq_true, if_false, if_neg hl, hs, hc, if_true,
    hp]

/-! ## The paths of `dispatch` -/

theorem dispatch_drop (daemon : TelemPostDaemon) (w : World) (r : Record) (f : Flags)
    (tr : List Event) (hs : spool_strategy_selected daemon = false) :
    dispatch daemon w r f false tr = ⟨Status.returned true, daemon, tr⟩ := by
  unfold dispatch
  simp [hs]

theorem dispatch_spool (daemon : TelemPostDaemon) (w : World) (r : Record) (f : Flags)
    (tr : List Event) (hs : spool_strategy_selected daemon = true) :
    dispatch daemon w r f false tr
      = ⟨if (spool_record (start_network_bypass daemon w.now_bypass) w).exited
            then Status.exited else Status.returned true,
          (spool_record (start_network_bypass daemon w.now_bypass) w).daemon,
          tr ++ [Event.spool_record r]⟩ := by
  unfold dispatch
  simp [hs]

theorem dispatch_sent (daemon : TelemPostDaemon) (w : World) (r : Record) (f : Flags)
    (tr : List Event) :
    dispatch daemon w r f true tr
      = match update_stage daemon w f with
        | none => ⟨Status.undefined, daemon, tr⟩
        | some daemon1 => ⟨Status.returned true, daemon1, tr⟩ := by
  unfold dispatch
  simp

/-- Whatever `dispatch` returns, it returns `true`. -/
theorem dispatch_returns_true (daemon : TelemPostDaemon) (w : World) (r : Record)
    (f : Flags) (record_sent : Bool) (tr : List Event) (b : Bool)
    (h : (dispatch daemon w r f record_sent tr).status = Status.returned b) : b = true := by
  cases record_sent with
  | true =>
    rw [dispatch_sent] at h
    split at h
    · cases h
    · cases h; rfl
  | false =>
    cases hs : spool_strategy_selected daemon with
    | false =>
      rw [dispatch_drop _ _ _ _ _ hs] at h
      cases h; rfl
    | true =>
      rw [dispatch_spool _ _ _ _ _ hs] at h
      simp only at h
      split at h
      · cases h
      · cases h; rfl

/-- The cases a run of `process_staged_record` on a parsed record falls into. -/
theorem process_cases (daemon : TelemPostDaemon) (w : World) (r : Record)
    (hr : w.record = some r) (hh : w.header_values = true) :
    process_staged_record daemon w
        = ⟨Status.returned true, daemon, retention_calls daemon w⟩ ∨
    process_staged_record daemon w
        = ⟨if (spool_record daemon w).exited then Status.exited else Status.returned true,
            (spool_record daemon w).daemon,
            retention_calls daemon w ++ [Event.spool_record r]⟩ ∨
    process_staged_record daemon w = ⟨Status.exited, daemon, retention_calls daemon w⟩ ∨
    process_staged_record daemon w = ⟨Status.undefined, daemon, retention_calls daemon w⟩ ∨
    (∃ f daemon1, rate_limit_stage daemon w = some (f, daemon1) ∧
      process_staged_record daemon w
        = ⟨Status.exited, daemon1, retention_calls daemon w ++ [Event.post_record_http r]⟩) ∨
    (∃ f daemon1 record_sent tr, rate_limit_stage daemon w = some (f, daemon1) ∧
      process_staged_record daemon w = dispatch daemon1 w r f record_sent tr) := by
  cases hd : daemon.record_server_delivery_enabled with
  | false => exact Or.inl (process_delivery_disabled daemon w r hr hh hd)
  | true =>
    cases hw : inside_direct_spool_window daemon w.now_window with
    | true => exact Or.inr (Or.inl (process_direct_spool daemon w r hr hh hd hw))
    | false =>
      by_cases hl : daemon.record_window_length = -1 ∨ daemon.byte_window_length = -1
      · exact Or.inr (Or.inr (Or.inl (process_window_invalid daemon w r hr hh hd hw hl)))
      · cases hs : rate_limit_stage daemon w with
        | none =>
          exact Or.inr (Or.inr (Or.inr (Or.inl
            (process_check_undefined daemon w r hr hh hd hw hl hs))))
        | some p =>
          obtain ⟨f, daemon1⟩ := p
          cases hc : (!daemon1.rate_limit_enabled
              || (f.record_check_passed && f.byte_check_passed)) with
          | false =>
            exact Or.inr (Or.inr (Or.inr (Or.inr (Or.inr
              ⟨f, daemon1, false, _, rfl,
                process_not_posted daemon w r f daemon1 hr hh hd hw hl hs hc⟩))))
          | true =>
            cases hp : w.post with
            | init_failed =>
              exact Or.inr (Or.inr (Or.inr (Or.inr (Or.inl
                ⟨f, daemon1, rfl,
                  process_post_init_failed daemon w r f daemon1 hr hh hd hw hl hs hc hp⟩))))
            | performed res http_response =>
              exact Or.inr (Or.inr (Or.inr (Or.inr (Or.inr
                ⟨f, daemon1, _, _, rfl,
                  process_posted daemon w r f daemon1 res http_response hr hh hd hw hl hs hc hp⟩))))

/-! ## Traces -/

theorem posted_append (a b : List Event) : posted (a ++ b) = (posted a || posted b) := by
  unfold posted
  rw [List.any_append]

theorem spooled_append (a b : List Event) : spooled (a ++ b) = (spooled a || spooled b) := by
  unfold spooled
  rw [List.any_append]

theorem posted_retention_calls (daemon : TelemPostDaemon) (w : World) :
    posted (retention_calls daemon w) = false := by
  unfold retention_calls
  rw [posted_append]
  cases daemon.record_retention_enabled <;> rfl

theorem spooled_retention_calls (daemon : TelemPostDaemon) (w : World) :
    spooled (retention_calls daemon w) = false := by
  unfold retention_calls
  rw [spooled_append]
  cases daemon.record_retention_enabled <;> rfl

theorem dispatch_trace (daemon : TelemPostDaemon) (w : World) (r : Record) (f : Flags)
    (record_sent : Bool) (tr : List Event) :
    (dispatch daemon w r f record_sent tr).trace
      = if (!record_sent && spool_strategy_selected daemon) = true
          then tr ++ [Event.spool_record r] else tr := by
  cases record_sent with
  | true =>
    rw [dispatch_sent]
    split <;> simp
  | false =>
    cases hs : spool_strategy_selected daemon with
    | false => rw [dispatch_drop _ _ _ _ _ hs]; simp
    | true => rw [dispatch_spool _ _ _ _ _ hs]; simp

theorem posted_dispatch (daemon : TelemPostDaemon) (w : World) (r : Record) (f : Flags)
    (record_sent : Bool) (tr : List Event) :
    posted (dispatch daemon w r f record_sent tr).trace = posted tr := by
  rw [dispatch_trace]
  split
  · rw [posted_append]
    simp [posted]
  · rfl

/-! ## The rate-limit stage -/

/-- What `rate_limit_stage` leaves when the limiter is off. -/
theorem rate_limit_stage_off (daemon : TelemPostDaemon) (w : World)
    (h : daemon.rate_limit_enabled = false) :
    rate_limit_stage daemon w = some (⟨true, true, true, true⟩, daemon) := by
  unfold rate_limit_stage
  simp [h]

/-- What `rate_limit_stage` leaves when the limiter is on. -/
theorem rate_limit_stage_on (daemon : TelemPostDaemon) (w : World) (f : Flags)
    (daemon1 : TelemPostDaemon) (h : daemon.rate_limit_enabled = true)
    (hs : rate_limit_stage daemon w = some (f, daemon1)) :
    f.record_burst_enabled = burst_limit_enabled daemon.record_burst_limit ∧
    f.byte_burst_enabled = burst_limit_enabled daemon.byte_burst_limit ∧
    (if burst_limit_enabled daemon.record_burst_limit = true then
        rate_limit_check w.tm_min daemon.record_burst_limit daemon.record_window_length
          daemon.record_burst_array TM_RECORD_COUNTER = some f.record_check_passed
      else f.record_check_passed = true) ∧
    (if burst_limit_enabled daemon.byte_burst_limit = true then
        rate_limit_check w.tm_min daemon.byte_burst_limit daemon.byte_window_length
          daemon.byte_burst_array w.RECORD_SIZE_LEN = some f.byte_check_passed
      else f.byte_check_passed = true) ∧
    daemon1 = (if (!burst_limit_enabled daemon.record_burst_limit
          && !burst_limit_enabled daemon.byte_burst_limit) = true
        then { daemon with rate_limit_enabled := false } else daemon) := by
  unfold rate_limit_stage at hs
  rw [if_pos h] at hs
  simp only at hs
  split at hs
  · cases hs
  · rename_i rc hrc
    split at hs
    · cases hs
    · rename_i bc hbc
      simp only [Option.some.injEq, Prod.mk.injEq] at hs
      obtain ⟨hf, hd1⟩ := hs
      subst hf
      refine ⟨rfl, rfl, ?_, ?_, hd1.symm⟩
      · simp only
        split
        · rename_i he; rw [if_pos he] at hrc; exact hrc
        · rename_i he; rw [if_neg he] at hrc; cases hrc; rfl
      · simp only
        split
        · rename_i he; rw [if_pos he] at hbc; exact hbc
        · rename_i he; rw [if_neg he] at hbc; cases hbc; rfl

/-- When the limiter is on, `rate_limit_stage` is undefined exactly when a check that
runs is undefined. -/
theorem rate_limit_stage_none (daemon : TelemPostDaemon) (w : World)
    (hs : rate_limit_stage daemon w = none) :
    daemon.rate_limit_enabled = true ∧
    ((burst_limit_enabled daemon.record_burst_limit = true ∧
        rate_limit_check w.tm_min daemon.record_burst_limit daemon.record_window_length
          daemon.record_burst_array TM_RECORD_COUNTER = none) ∨
      (burst_limit_enabled daemon.byte_burst_limit = true ∧
        rate_limit_check w.tm_min daemon.byte_burst_limit daemon.byte_window_length
          daemon.byte_burst_array w.RECORD_SIZE_LEN = none)) := by
  cases h : daemon.rate_limit_enabled with
  | false => rw [rate_limit_stage_off daemon w h] at hs; cases hs
  | true =>
    refine ⟨rfl, ?_⟩
    unfold rate_limit_stage at hs
    rw [if_pos h] at hs
    simp only at hs
    split at hs
    · rename_i hrc
      left
      by_cases he : burst_limit_enabled daemon.record_burst_limit = true
      · rw [if_pos he] at hrc; exact ⟨he, hrc⟩
      · rw [if_neg he] at hrc; cases hrc
    · split at hs
      · rename_i hbc
        right
        by_cases he : burst_limit_enabled daemon.byte_burst_limit = true
        · rw [if_pos he] at hbc; exact ⟨he, hbc⟩
        · rw [if_neg he] at hbc; cases hbc
      · cases hs

/-- The rate-limit stage changes no field other than `rate_limit_enabled`. -/
theorem rate_limit_stage_frame (daemon : TelemPostDaemon) (w : World) (f : Flags)
    (daemon1 : TelemPostDaemon) (hs : rate_limit_stage daemon w = some (f, daemon1)) :
    ∃ b, daemon1 = { daemon with rate_limit_enabled := b } := by
  cases h : daemon.rate_limit_enabled with
  | false =>
    rw [rate_limit_stage_off daemon w h] at hs
    simp only [Option.some.injEq, Prod.mk.injEq] at hs
    refine ⟨false, ?_⟩
    rw [← hs.2, ← h]
  | true =>
    obtain ⟨_, _, _, _, hd1⟩ := rate_limit_stage_on daemon w f daemon1 h hs
    rw [hd1]
    split
    · exact ⟨false, rfl⟩
    · refine ⟨true, ?_⟩
      rw [← h]

/-! ## `spool_record` -/

theorem spool_record_blocked (daemon : TelemPostDaemon) (w : World)
    (h : spool_blocked daemon w) :
    spool_record daemon w = ⟨false, daemon, SpoolFile.not_created⟩ := by
  unfold spool_record
  rcases h with h | ⟨h1, h2 | h2⟩
  · simp [h]
  · cases daemon.is_spool_valid <;> simp [h1, h2]
  · cases daemon.is_spool_valid <;> simp [h1, h2]

theorem spool_record_open (daemon : TelemPostDaemon) (w : World)
    (h : ¬ spool_blocked daemon w) :
    spool_record daemon w =
      match w.spool with
      | SpoolOutcome.alloc_failed => ⟨true, daemon, SpoolFile.not_created⟩
      | SpoolOutcome.mkstemp_failed => ⟨false, daemon, SpoolFile.create_failed⟩
      | SpoolOutcome.fdopen_failed => ⟨false, daemon, SpoolFile.unlinked⟩
      | SpoolOutcome.written none => ⟨false, daemon, SpoolFile.stored⟩
      | SpoolOutcome.written (some st_blocks) =>
        ⟨false,
          { daemon with
            current_spool_size := daemon.current_spool_size + (st_blocks : Int) * 512 },
          SpoolFile.stored⟩ := by
  unfold spool_blocked at h
  have hv : daemon.is_spool_valid = true := by
    cases hv : daemon.is_spool_valid with
    | true => rfl
    | false => exact absurd (Or.inl hv) h
  have h1 : ¬ (w.spool_max_size ≠ -1 ∧ daemon.current_spool_size < 0) :=
    fun hh => h (Or.inr ⟨hh.1, Or.inl hh.2⟩)
  have h2 : ¬ (w.spool_max_size ≠ -1 ∧ daemon.current_spool_size ≥ w.spool_max_size * 1024) :=
    fun hh => h (Or.inr ⟨hh.1, Or.inr hh.2⟩)
  unfold spool_record
  simp only [hv, Bool.not_true, Bool.false_eq_true, if_false, if_neg h1, if_neg h2]

/-- The only field `spool_record` may change is `current_spool_size`. -/
theorem spool_record_frame (daemon : TelemPostDaemon) (w : World) :
    ∃ size, (spool_record daemon w).daemon = { daemon with current_spool_size := size } := by
  by_cases h : spool_blocked daemon w
  · rw [spool_record_blocked daemon w h]
    exact ⟨daemon.current_spool_size, rfl⟩
  · rw [spool_record_open daemon w h]
    split
    · exact ⟨daemon.current_spool_size, rfl⟩
    · exact ⟨daemon.current_spool_size, rfl⟩
    · exact ⟨daemon.current_spool_size, rfl⟩
    · exact ⟨daemon.current_spool_size, rfl⟩
    · exact ⟨_, rfl⟩

/-- Once the send decision is reached with flags `f`, the post is attempted exactly when
the condition of line 431 holds. -/
theorem posted_iff_condition (daemon : TelemPostDaemon) (w : World) (r : Record)
    (f : Flags) (daemon1 : TelemPostDaemon)
    (hr : w.record = some r) (hh : w.header_values = true)
    (hd : daemon.record_server_delivery_enabled = true)
    (hw : inside_direct_spool_window daemon w.now_window = false)
    (hl : ¬ (daemon.record_window_length = -1 ∨ daemon.byte_window_length = -1))
    (hs : rate_limit_stage daemon w = some (f, daemon1)) :
    posted (process_staged_record daemon w).trace
      = (!daemon1.rate_limit_enabled || (f.record_check_passed && f.byte_check_passed)) := by
  cases hc : (!daemon1.rate_limit_enabled
      || (f.record_check_passed && f.byte_check_passed)) with
  | false =>
    rw [process_not_posted daemon w r f daemon1 hr hh hd hw hl hs hc, posted_dispatch,
      posted_retention_calls]
  | true =>
    cases hp : w.post with
    | init_failed =>
      rw [process_post_init_failed daemon w r f daemon1 hr hh hd hw hl hs hc hp]
      simp only
      rw [posted_append]
      simp [posted]
    | performed res http_response =>
      rw [process_posted daemon w r f daemon1 res http_response hr hh hd hw hl hs hc hp,
        posted_dispatch, posted_append]
      simp [posted]

/-! ## Runs that post -/

/-- A run whose trace holds a post went through the send decision. -/
theorem posted_path (daemon : TelemPostDaemon) (w : World)
    (hp : posted (process_staged_record daemon w).trace = true) :
    ∃ r f daemon1, w.record = some r ∧ w.header_values = true ∧
      daemon.record_server_delivery_enabled = true ∧
      inside_direct_spool_window daemon w.now_window = false ∧
      ¬ (daemon.record_window_length = -1 ∨ daemon.byte_window_length = -1) ∧
      rate_limit_stage daemon w = some (f, daemon1) ∧
      (!daemon1.rate_limit_enabled || (f.record_check_passed && f.byte_check_passed))
        = true := by
  cases hr : w.record with
  | none =>
    rw [process_read_failed daemon w hr] at hp
    cases hp
  | some r =>
    cases hh : w.header_values with
    | false =>
      rw [process_header_undefined daemon w r hr hh] at hp
      simp [posted] at hp
    | true =>
      cases hd : daemon.record_server_delivery_enabled with
      | false =>
        rw [process_delivery_disabled daemon w r hr hh hd] at hp
        simp only [posted_retention_calls] at hp
        cases hp
      | true =>
        cases hw : inside_direct_spool_window daemon w.now_window with
        | true =>
          rw [process_direct_spool daemon w r hr hh hd hw] at hp
          simp only [posted_append, posted_retention_calls] at hp
          cases hp
        | false =>
          by_cases hl : daemon.record_window_length = -1 ∨ daemon.byte_window_length = -1
          · rw [process_window_invalid daemon w r hr hh hd hw hl] at hp
            simp only [posted_retention_calls] at hp
            cases hp
          · cases hs : rate_limit_stage daemon w with
            | none =>
              rw [process_check_undefined daemon w r hr hh hd hw hl hs] at hp
              simp only [posted_retention_calls] at hp
              cases hp
            | some p =>
              obtain ⟨f, daemon1⟩ := p
              rw [posted_iff_condition daemon w r f daemon1 hr hh hd hw hl hs] at hp
              exact ⟨r, f, daemon1, rfl, rfl, rfl, rfl, hl, rfl, hp⟩

/-- A run in which the post is attempted and fails ends in `dispatch` with
`record_sent = false`. -/
theorem send_failed_path (daemon : TelemPostDaemon) (w : World)
    (h : send_failed w (process_staged_record daemon w).trace) :
    ∃ r f daemon1, w.record = some r ∧ rate_limit_stage daemon w = some (f, daemon1) ∧
      process_staged_record daemon w
        = dispatch daemon1 w r f false (retention_calls daemon w ++ [Event.post_record_http r]) := by
  obtain ⟨hp, res, http_response, hw, hres⟩ := h
  obtain ⟨r, f, daemon1, hr, hh, hd, hwin, hl, hs, hc⟩ := posted_path daemon w hp
  refine ⟨r, f, daemon1, hr, hs, ?_⟩
  rw [process_posted daemon w r f daemon1 res http_response hr hh hd hwin hl hs hc hw, hres]

/-! ## Frame properties of the pipeline -/

/-- A run that does not end with a successful post leaves both burst arrays alone. -/
theorem process_arrays_frame (daemon : TelemPostDaemon) (w : World)
    (h : ¬ sent w (process_staged_record daemon w).trace) :
    (process_staged_record daemon w).daemon.record_burst_array = daemon.record_burst_array ∧
    (process_staged_record daemon w).daemon.byte_burst_array = daemon.byte_burst_array := by
  have hdisp : ∀ (d1 : TelemPostDaemon) (r : Record) (f : Flags) (tr : List Event),
      (dispatch d1 w r f false tr).daemon.record_burst_array = d1.record_burst_array ∧
      (dispatch d1 w r f false tr).daemon.byte_burst_array = d1.byte_burst_array := by
    intro d1 r f tr
    cases hs : spool_strategy_selected d1 with
    | false => rw [dispatch_drop _ _ _ _ _ hs]; exact ⟨rfl, rfl⟩
    | true =>
      rw [dispatch_spool _ _ _ _ _ hs]
      obtain ⟨size, hsz⟩ := spool_record_frame (start_network_bypass d1 w.now_bypass) w
      simp only
      rw [hsz]
      exact ⟨rfl, rfl⟩
  cases hr : w.record with
  | none => rw [process_read_failed daemon w hr]; exact ⟨rfl, rfl⟩
  | some r =>
    cases hh : w.header_values with
    | false =>
      rw [process_header_undefined daemon w r hr hh]
      exact ⟨rfl, rfl⟩
    | true =>
      cases hd : daemon.record_server_delivery_enabled with
      | false => rw [process_delivery_disabled daemon w r hr hh hd]; exact ⟨rfl, rfl⟩
      | true =>
        cases hw : inside_direct_spool_window daemon w.now_window with
        | true =>
          rw [process_direct_spool daemon w r hr hh hd hw]
          obtain ⟨size, hsz⟩ := spool_record_frame daemon w
          simp only
          rw [hsz]
          exact ⟨rfl, rfl⟩
        | false =>
          by_cases hl : daemon.record_window_length = -1 ∨ daemon.byte_window_length = -1
          · rw [process_window_invalid daemon w r hr hh hd hw hl]; exact ⟨rfl, rfl⟩
          · cases hs : rate_limit_stage daemon w with
            | none => rw [process_check_undefined daemon w r hr hh hd hw hl hs]; exact ⟨rfl, rfl⟩
            | some p =>
              obtain ⟨f, daemon1⟩ := p
              obtain ⟨b, hb⟩ := rate_limit_stage_frame daemon w f daemon1 hs
              have e1 : daemon1.record_burst_array = daemon.record_burst_array := by rw [hb]
              have e2 : daemon1.byte_burst_array = daemon.byte_burst_array := by rw [hb]
              cases hc : (!daemon1.rate_limit_enabled
                  || (f.record_check_passed && f.byte_check_passed)) with
              | false =>
                rw [process_not_posted daemon w r f daemon1 hr hh hd hw hl hs hc]
                rw [(hdisp daemon1 r f _).1, (hdisp daemon1 r f _).2]
                exact ⟨e1, e2⟩
              | true =>
                cases hp : w.post with
                | init_failed =>
                  rw [process_post_init_failed daemon w r f daemon1 hr hh hd hw hl hs hc hp]
                  exact ⟨e1, e2⟩
                | performed res http_response =>
                  have hpr := process_posted daemon w r f daemon1 res http_response
                    hr hh hd hw hl hs hc hp
                  cases hres : post_record_http res http_response with
                  | false =>
                    rw [hpr, hres, (hdisp daemon1 r f _).1, (hdisp daemon1 r f _).2]
                    exact ⟨e1, e2⟩
                  | true =>
                    exfalso
                    apply h
                    refine ⟨?_, res, http_response, hp, hres⟩
                    rw [posted_iff_condition daemon w r f daemon1 hr hh hd hw hl hs, hc]

/-! ## The bypass timestamp -/

/-- Started at a non-negative index, the summation loop never leaves the array. -/
theorem check_loop_in_bounds (array : Slots) (incValue : Nat) :
    ∀ (n s count : Nat),
      check_loop array incValue n (s : Int) count ≠ CheckLoop.out_of_bounds := by
  intro n
  induction n with
  | zero =>
    intro s count h
    cases h
  | succ n ih =>
    intro s count
    rw [check_loop, read_nat]
    simp only
    split
    · intro h; cases h
    · have hs : ((s : Int) + 1) = ((s + 1 : Nat) : Int) := by push_cast; rfl
      rw [hs]
      exact ih (s + 1) _

/-- For a minute in `[0,59]` and a window length in `[0,60]` the check returns a
boolean. -/
theorem rate_limit_check_defined (m W : Int) (limit : Int) (arr : Slots) (inc : Nat)
    (hm0 : 0 ≤ m) (hm : m < 60) (hW0 : 0 ≤ W) (hW : W ≤ 60) :
    ∃ b, rate_limit_check m limit W arr inc = some b := by
  lift m to Nat using hm0
  lift W to Nat using hW0
  unfold rate_limit_check
  rw [window_start_nat m W (by omega) (by omega), Int.toNat_ofNat]
  have h := check_loop_in_bounds arr inc W ((60 + m - W + 1) % 60) 0
  cases hc : check_loop arr inc W (((60 + m - W + 1) % 60 : Nat) : Int) 0 with
  | finished count => exact ⟨_, rfl⟩
  | guard_fired => exact ⟨_, rfl⟩
  | out_of_bounds => exact absurd hc h

/-- For a minute in `[0,59]` the update returns an array, whatever the window length. -/
theorem rate_limit_update_defined (m W : Int) (arr : Slots) (inc : Nat)
    (hm0 : 0 ≤ m) (hm : m < 60) :
    ∃ arr1, rate_limit_update m W arr inc = some arr1 := by
  lift m to Nat using hm0
  unfold rate_limit_update
  simp only
  rw [read_in_range arr m (by omega)]
  simp only
  rw [write_in_range arr m (by omega)]
  simp only
  have hs : ((m : Int) + 1) = ((m + 1 : Nat) : Int) := by push_cast; rfl
  rw [hs]
  obtain ⟨a1, h1, _⟩ := zero_loop_nat (TM_RATE_LIMIT_SLOTS - W).toNat (m + 1)
    (Function.update arr (slot m) (size_add (arr (slot m)) inc))
  exact ⟨a1, h1⟩

/-- With the minute in `[0,59]` and both window lengths in `[0,60]` the rate-limit block
is defined. -/
theorem rate_limit_stage_defined (daemon : TelemPostDaemon) (w : World)
    (hm0 : 0 ≤ w.tm_min) (hm : w.tm_min < 60)
    (hr0 : 0 ≤ daemon.record_window_length) (hr : daemon.record_window_length ≤ 60)
    (hb0 : 0 ≤ daemon.byte_window_length) (hb : daemon.byte_window_length ≤ 60) :
    rate_limit_stage daemon w ≠ none := by
  intro hs
  obtain ⟨_, h | h⟩ := rate_limit_stage_none daemon w hs
  · obtain ⟨b, hb1⟩ := rate_limit_check_defined w.tm_min daemon.record_window_length
      daemon.record_burst_limit daemon.record_burst_array TM_RECORD_COUNTER hm0 hm hr0 hr
    rw [h.2] at hb1
    cases hb1
  · obtain ⟨b, hb1⟩ := rate_limit_check_defined w.tm_min daemon.byte_window_length
      daemon.byte_burst_limit daemon.byte_burst_array w.RECORD_SIZE_LEN hm0 hm hb0 hb
    rw [h.2] at hb1
    cases hb1

/-- With the minute in `[0,59]` the counter updates are defined. -/
theorem update_stage_defined (daemon : TelemPostDaemon) (w : World) (f : Flags)
    (hm0 : 0 ≤ w.tm_min) (hm : w.tm_min < 60) :
    update_stage daemon w f ≠ none := by
  unfold update_stage
  simp only
  obtain ⟨ra, hra⟩ := rate_limit_update_defined w.tm_min daemon.record_window_length
    daemon.record_burst_array TM_RECORD_COUNTER hm0 hm
  obtain ⟨ba, hba⟩ := rate_limit_update_defined w.tm_min daemon.byte_window_length
    daemon.byte_burst_array w.RECORD_SIZE_LEN hm0 hm
  rw [hra, hba]
  cases f.record_burst_enabled <;> cases f.byte_burst_enabled <;> simp

/-- A run on a parsed record whose header values are found returns `true` when nothing
ends the process (both window lengths in `[1,60]`, `curl_easy_init` and `asprintf`
succeed) and `tm_min` is a minute. -/
theorem process_returns_true (daemon : TelemPostDaemon) (w : World) (r : Record)
    (hrec : w.record = some r) (hh : w.header_values = true)
    (hm0 : 0 ≤ w.tm_min) (hm : w.tm_min < 60)
    (hr1 : 1 ≤ daemon.record_window_length) (hr : daemon.record_window_length ≤ 60)
    (hb1 : 1 ≤ daemon.byte_window_length) (hb : daemon.byte_window_length ≤ 60)
    (hpost : w.post ≠ PostOutcome.init_failed) (hspool : w.spool ≠ SpoolOutcome.alloc_failed) :
    (process_staged_record daemon w).status = Status.returned true := by
  have hex : ∀ d : TelemPostDaemon, (spool_record d w).exited = false := by
    intro d
    by_cases hbl : spool_blocked d w
    · rw [spool_record_blocked d w hbl]
    · rw [spool_record_open d w hbl]
      split
      · exact absurd (by assumption) hspool
      · rfl
      · rfl
      · rfl
      · rfl
  have hdisp : ∀ (d1 : TelemPostDaemon) (f : Flags) (s : Bool) (tr : List Event),
      (dispatch d1 w r f s tr).status = Status.returned true := by
    intro d1 f s tr
    cases s with
    | true =>
      rw [dispatch_sent]
      split
      · rename_i hu
        exact absurd hu (update_stage_defined d1 w f hm0 hm)
      · rfl
    | false =>
      cases hsel : spool_strategy_selected d1 with
      | false => rw [dispatch_drop _ _ _ _ _ hsel]
      | true =>
        rw [dispatch_spool _ _ _ _ _ hsel]
        simp only
        rw [hex]
        rfl
  cases hd : daemon.record_server_delivery_enabled with
  | false => rw [process_delivery_disabled daemon w r hrec hh hd]
  | true =>
    cases hw : inside_direct_spool_window daemon w.now_window with
    | true =>
      rw [process_direct_spool daemon w r hrec hh hd hw]
      simp only
      rw [hex]
      rfl
    | false =>
      have hl : ¬ (daemon.record_window_length = -1 ∨ daemon.byte_window_length = -1) := by
        omega
      cases hs : rate_limit_stage daemon w with
      | none =>
        exact absurd hs
          (rate_limit_stage_defined daemon w hm0 hm (by omega) hr (by omega) hb)
      | some p =>
        obtain ⟨f, d1⟩ := p
        cases hc : (!d1.rate_limit_enabled
            || (f.record_check_passed && f.byte_check_passed)) with
        | false =>
          rw [process_not_posted daemon w r f d1 hrec hh hd hw hl hs hc]
          exact hdisp d1 f false _
        | true =>
          cases hp : w.post with
          | init_failed => exact absurd hp hpost
          | performed res http_response =>
            rw [process_posted daemon w r f d1 res http_response hrec hh hd hw hl hs hc hp]
            exact hdisp d1 f _ _

/-! # Properties of the specification -/

/-- Statement of C1: `process_staged_record` returns `false` exactly when `read_record`
failed.  When `read_record` fails the run returns `false`; whenever the run returns after
a successful `read_record` (delivery disabled, direct-spool window, sent, spooled,
dropped) it returns `true`.  After a successful `read_record` the run does return `true`
whenever the header values are found, nothing ends the process (window lengths in
`[1,60]`, `curl_easy_init` and `asprintf` succeed) and `tm_min` is a minute; when a header
lookup fails the run does not return at all: it is undefined (`free` of the unassigned
`event_id_value`). -/
theorem process_returns_false_iff_read_failed (daemon : TelemPostDaemon) (w : World) :
    (w.record = none → (process_staged_record daemon w).status = Status.returned false) ∧
    (∀ b, (process_staged_record daemon w).status = Status.returned b →
      (b = false ↔ w.record = none)) ∧
    (w.record ≠ none → w.header_values = true → 0 ≤ w.tm_min ∧ w.tm_min < 60 →
      1 ≤ daemon.record_window_length ∧ daemon.record_window_length ≤ 60 →
      1 ≤ daemon.byte_window_length ∧ daemon.byte_window_length ≤ 60 →
      w.post ≠ PostOutcome.init_failed → w.spool ≠ SpoolOutcome.alloc_failed →
      (process_staged_record daemon w).status = Status.returned true) ∧
    (w.record ≠ none → w.header_values = false →
      (process_staged_record daemon w).status = Status.undefined) := by
  refine ⟨?_, ?_, ?_, ?_⟩
  · intro hr
    rw [process_read_failed daemon w hr]
  · intro b hb
    cases hr : w.record with
    | none =>
      rw [process_read_failed daemon w hr] at hb
      cases hb
      simp
    | some r =>
      cases hh : w.header_values with
      | false =>
        rw [process_header_undefined daemon w r hr hh] at hb
        cases hb
      | true =>
        have hbt : b = true := by
          rcases process_cases daemon w r hr hh with h | h | h | h | ⟨_, _, _, h⟩ |
            ⟨f, d1, s, tr, _, h⟩
          · rw [h] at hb; cases hb; rfl
          · rw [h] at hb
            simp only at hb
            split at hb
            · cases hb
            · cases hb; rfl
          · rw [h] at hb; cases hb
          · rw [h] at hb; cases hb
          · rw [h] at hb; cases hb
          · rw [h] at hb
            exact dispatch_returns_true d1 w r f s tr b hb
        simp [hbt]
  · intro hne hh hm hrw hbw hpost hspool
    cases hr : w.record with
    | none => exact absurd hr hne
    | some r =>
      exact process_returns_true daemon w r hr hh hm.1 hm.2 hrw.1 hrw.2 hbw.1 hbw.2 hpost
        hspool
  · intro hne hh
    cases hr : w.record with
    | none => exact absurd hr hne
    | some r => rw [process_header_undefined daemon w r hr hh]

/-- Witness for C1: an unreadable staged file gives `false`; the run on the sample world
has a readable record and returns `true`; the run on a record without header values is
undefined. -/
theorem process_returns_false_iff_read_failed_witness :
    (process_staged_record sample_daemon unreadable_world).status = Status.returned false ∧
    (true = false ↔ sample_world.record = none) ∧
    (process_staged_record sample_daemon sample_world).status = Status.returned true ∧
    (process_staged_record sample_daemon headerless_world).status = Status.undefined :=
  ⟨(process_returns_false_iff_read_failed sample_daemon unreadable_world).1 rfl,
    (process_returns_false_iff_read_failed sample_daemon sample_world).2.1 true (by decide),
    (process_returns_false_iff_read_failed sample_daemon sample_world).2.2.1 (by decide)
      rfl (by decide) (by decide) (by decide) (by decide) (by decide),
    (process_returns_false_iff_read_failed sample_daemon headerless_world).2.2.2 (by decide)
      rfl⟩

/-- C2 (as amended): for `m` in `[0,59]`, `W` in `[1,60]`, an `int64_t` limit `>= 0` and
an array and increment for which the per-slot guard does not fire and for which the exact
window sum plus `inc` still fits a `size_t`, `rate_limit_check` returns a boolean, and it
is `true` exactly when the exact sum of the `W` slots from
`start = (60 + m - W + 1) mod 60` plus `inc` is at most the limit. -/
theorem rate_limit_check_exact_when_no_wrap (m W : Nat) (limit : Int) (arr : Slots)
    (inc : Nat) (hm : m < 60) (_hW1 : 1 ≤ W) (hW : W ≤ 60) (hl0 : 0 ≤ limit)
    (hl1 : limit < 2 ^ 63)
    (hguard : ∀ i, i < W →
      ¬ (size_add (arr (slot ((60 + m - W + 1) % 60 + i))) inc ≥ SIZE_MAX))
    (hfit : window_sum arr ((60 + m - W + 1) % 60) W + inc < 2 ^ 64) :
    ∃ b, rate_limit_check (m : Int) limit (W : Int) arr inc = some b ∧
      (b = true ↔ ((window_sum arr ((60 + m - W + 1) % 60) W + inc : Nat) : Int) ≤ limit) := by
  unfold rate_limit_check
  rw [window_start_nat m W hm hW, Int.toNat_ofNat,
    check_loop_finished arr inc W _ 0 (by decide) (fun k hk => by have := hguard k hk; omega)]
  simp only [Nat.zero_add]
  refine ⟨_, rfl, ?_⟩
  have hs : window_sum arr ((60 + m - W + 1) % 60) W % 2 ^ 64
      = window_sum arr ((60 + m - W + 1) % 60) W := Nat.mod_eq_of_lt (by omega)
  rw [hs, to_size_t_nonneg limit hl0 hl1]
  unfold size_add
  rw [Nat.mod_eq_of_lt hfit]
  by_cases h : window_sum arr ((60 + m - W + 1) % 60) W + inc > limit.toNat
  · rw [if_pos h]
    constructor
    · intro hb; cases hb
    · intro hle; omega
  · rw [if_neg h]
    constructor
    · intro _; omega
    · intro _; rfl

/-- Counterexample to C2 as stated: with `2 ^ 63` in slots 58 and 59, minute 59, window 2,
increment 1 and limit 10 no guard fires and the check passes, although the exact sum of
the window plus the increment is `2 ^ 64 + 1`. -/
theorem rate_limit_check_exact_sum_counterexample :
    (∀ i, i < 2 → ¬ (size_add (wrap_array (slot ((60 + 59 - 2 + 1) % 60 + i))) 1 ≥ SIZE_MAX)) ∧
    rate_limit_check 59 10 2 wrap_array 1 = some true ∧
    ¬ ((window_sum wrap_array ((60 + 59 - 2 + 1) % 60) 2 + 1 : Nat) : Int) ≤ 10 :=
  ⟨by decide, by decide, by decide⟩

/-- Witness for C2 as amended: minute 3, window 5, limit 100 on the ramp array. -/
theorem rate_limit_check_exact_when_no_wrap_witness :
    ∃ b, rate_limit_check ((3 : Nat) : Int) 100 ((5 : Nat) : Int) ramp_array 1 = some b ∧
      (b = true ↔ ((window_sum ramp_array ((60 + 3 - 5 + 1) % 60) 5 + 1 : Nat) : Int) ≤ 100) :=
  rate_limit_check_exact_when_no_wrap 3 5 100 ramp_array 1 (by decide) (by decide) (by decide)
    (by decide) (by decide) (by decide) (by decide)
/-- Statement of C3 as amended: after `rate_limit_update(m, W, arr, inc)` with `m` in
`[0,59]` and `W` in `[1,60]`, slot `m` holds its old value plus `inc` reduced modulo
`2 ^ 64` (the `size_t` sum that `array[current_minute] += incValue` stores), which is its
old value plus `inc` whenever that sum is at most `SIZE_MAX`; every slot outside the
window `(m-W+1) mod 60, ..., m` is zero, and every slot of the window other than `m` is
unchanged. -/
theorem rate_limit_update_window (m W : Nat) (arr : Slots) (inc : Nat) (hm : m < 60)
    (hW1 : 1 ≤ W) (hW : W ≤ 60) :
    ∃ arr1, rate_limit_update (m : Int) (W : Int) arr inc = some arr1 ∧
      arr1 (slot m) = size_add (arr (slot m)) inc ∧
      (arr (slot m) + inc < 2 ^ 64 → arr1 (slot m) = arr (slot m) + inc) ∧
      (∀ j, ¬ in_window m W j → arr1 j = 0) ∧
      (∀ j, in_window m W j → j ≠ slot m → arr1 j = arr j) := by
  unfold rate_limit_update
  simp only
  rw [read_in_range arr m hm]
  simp only
  rw [write_in_range arr m hm]
  simp only
  have hb : (TM_RATE_LIMIT_SLOTS - (W : Int)).toNat = 60 - W := by
    unfold TM_RATE_LIMIT_SLOTS; omega
  have hs : ((m : Int) + 1) = ((m + 1 : Nat) : Int) := by push_cast; rfl
  rw [hb, hs]
  obtain ⟨a1, h1, h2⟩ := zero_loop_nat (60 - W) (m + 1)
    (Function.update arr (slot m) (size_add (arr (slot m)) inc))
  have hmw : in_window m W (slot m) := ⟨0, by omega, by
    apply Fin.ext
    show m % 60 = (60 + m - 0) % 60
    omega⟩
  have hslot : a1 (slot m) = size_add (arr (slot m)) inc := by
    rw [h2, if_neg, Function.update_same]
    rw [cleared_iff_not_in_window m W hm hW1 hW]
    exact fun h => h hmw
  refine ⟨a1, h1, hslot, ?_, ?_, ?_⟩
  · intro hfit
    rw [hslot]
    exact Nat.mod_eq_of_lt hfit
  · intro j hj
    rw [h2, if_pos ((cleared_iff_not_in_window m W hm hW1 hW j).mpr hj)]
  · intro j hj hne
    rw [h2, if_neg, Function.update_noteq hne]
    rw [cleared_iff_not_in_window m W hm hW1 hW]
    exact fun h => h hj

/-- Counterexample to C3 as stated: with `SIZE_MAX` in slot 3, the update at minute 3 with
window 5 and increment 1 leaves 0 in slot 3, not the old value plus 1. -/
theorem rate_limit_update_plus_counterexample :
    (rate_limit_update 3 5 full_array 1).map (fun a => a (slot 3)) = some 0 ∧
    full_array (slot 3) + 1 = 2 ^ 64 :=
  ⟨by decide, by decide⟩

/-- Witness for C3: minute 3, window 5, increment 7 on the ramp array. -/
theorem rate_limit_update_window_witness :
    ∃ arr1, rate_limit_update ((3 : Nat) : Int) ((5 : Nat) : Int) ramp_array 7 = some arr1 ∧
      arr1 (slot 3) = size_add (ramp_array (slot 3)) 7 ∧
      (ramp_array (slot 3) + 7 < 2 ^ 64 → arr1 (slot 3) = ramp_array (slot 3) + 7) ∧
      (∀ j, ¬ in_window 3 5 j → arr1 j = 0) ∧
      (∀ j, in_window 3 5 j → j ≠ slot 3 → arr1 j = ramp_array j) :=
  rate_limit_update_window 3 5 ramp_array 7 (by decide) (by decide) (by decide)

/-- Statement of C4: in a run that reaches the send decision (record parsed, delivery
enabled, outside the direct-spool window, both window lengths different from -1, and the
header lookups of `save_entry_to_journal` succeeded, so that the run is defined up to
there), `post_record_http` is invoked if and only if rate limiting is disabled or every
enabled check (record axis, byte axis) passed; a record rejected by an enabled check is
never posted.  When a header lookup fails the run is undefined before the send decision
and has made no post. -/
theorem post_iff_limiter_allows (daemon : TelemPostDaemon) (w : World) (r : Record)
    (hr : w.record = some r) (hd : daemon.record_server_delivery_enabled = true)
    (hw : inside_direct_spool_window daemon w.now_window = false)
    (hrw : daemon.record_window_length ≠ -1) (hbw : daemon.byte_window_length ≠ -1) :
    (w.header_values = true →
      (posted (process_staged_record daemon w).trace = true ↔
        (daemon.rate_limit_enabled = false ∨
          ((burst_limit_enabled daemon.record_burst_limit = true →
              record_check daemon w = some true) ∧
            (burst_limit_enabled daemon.byte_burst_limit = true →
              byte_check daemon w = some true))))) ∧
    (w.header_values = false →
      (process_staged_record daemon w).status = Status.undefined ∧
      posted (process_staged_record daemon w).trace = false) ∧
    (daemon.rate_limit_enabled = true →
      ((burst_limit_enabled daemon.record_burst_limit = true ∧
          record_check daemon w = some false) ∨
        (burst_limit_enabled daemon.byte_burst_limit = true ∧
          byte_check daemon w = some false)) →
      posted (process_staged_record daemon w).trace = false) := by
  have hl : ¬ (daemon.record_window_length = -1 ∨ daemon.byte_window_length = -1) := by
    rintro (h | h)
    · exact hrw h
    · exact hbw h
  have main : w.header_values = true →
      (posted (process_staged_record daemon w).trace = true ↔
        (daemon.rate_limit_enabled = false ∨
          ((burst_limit_enabled daemon.record_burst_limit = true →
              record_check daemon w = some true) ∧
            (burst_limit_enabled daemon.byte_burst_limit = true →
              byte_check daemon w = some true)))) := by
    intro hh
    unfold record_check byte_check
    cases he : daemon.rate_limit_enabled with
    | false =>
      rw [posted_iff_condition daemon w r _ daemon hr hh hd hw hl
        (rate_limit_stage_off daemon w he)]
      simp [he]
    | true =>
      cases hs : rate_limit_stage daemon w with
      | none =>
        rw [process_check_undefined daemon w r hr hh hd hw hl hs, posted_retention_calls]
        obtain ⟨_, h | h⟩ := rate_limit_stage_none daemon w hs
        · simp [h.1, h.2]
        · simp [h.1, h.2]
      | some p =>
        obtain ⟨f, daemon1⟩ := p
        rw [posted_iff_condition daemon w r f daemon1 hr hh hd hw hl hs]
        obtain ⟨_, _, hrc, hbc, hd1⟩ := rate_limit_stage_on daemon w f daemon1 he hs
        cases hre : burst_limit_enabled daemon.record_burst_limit <;>
          cases hbe : burst_limit_enabled daemon.byte_burst_limit <;>
          simp only [hre, hbe, Bool.false_eq_true, if_false, if_true] at hrc hbc <;>
          simp [hd1, hre, hbe, he, hrc, hbc]
  have hundef : w.header_values = false →
      (process_staged_record daemon w).status = Status.undefined ∧
      posted (process_staged_record daemon w).trace = false := by
    intro hh
    rw [process_header_undefined daemon w r hr hh]
    exact ⟨rfl, rfl⟩
  refine ⟨main, hundef, ?_⟩
  intro he hrej
  cases hh : w.header_values with
  | false => exact (hundef hh).2
  | true =>
    cases hp : posted (process_staged_record daemon w).trace with
    | false => rfl
    | true =>
      exfalso
      rcases (main hh).mp hp with h | ⟨h1, h2⟩
      · rw [he] at h; cases h
      · rcases hrej with ⟨ha, hb⟩ | ⟨ha, hb⟩
        · have := h1 ha; rw [hb] at this; cases this
        · have := h2 ha; rw [hb] at this; cases this

/-- Witness for C4: the sample run reaches the send decision. -/
theorem post_iff_limiter_allows_witness :
    (sample_world.record = some sample_record ∧
      sample_daemon.record_server_delivery_enabled = true ∧
      inside_direct_spool_window sample_daemon sample_world.now_window = false ∧
      sample_daemon.record_window_length ≠ -1 ∧ sample_daemon.byte_window_length ≠ -1 ∧
      sample_world.header_values = true) ∧
    (posted (process_staged_record sample_daemon sample_world).trace = true ↔
      (sample_daemon.rate_limit_enabled = false ∨
        ((burst_limit_enabled sample_daemon.record_burst_limit = true →
            record_check sample_daemon sample_world = some true) ∧
          (burst_limit_enabled sample_daemon.byte_burst_limit = true →
            byte_check sample_daemon sample_world = some true)))) :=
  ⟨⟨rfl, rfl, by decide, by decide, by decide, rfl⟩,
    (post_iff_limiter_allows sample_daemon sample_world sample_record rfl rfl (by decide)
      (by decide) (by decide)).1 rfl⟩

/-- Statement of C6 as amended: on a successfully parsed record whose header values are
found, with server delivery enabled and `now` inside the direct-spool window, the
pipeline calls `spool_record`, makes no post, and returns `true` unless `spool_record`
ends the process (its `asprintf` failing).  When a header lookup fails the run is
undefined before the window test.  In no case does the run post or return `false`. -/
theorem direct_spool_returns_true (daemon : TelemPostDaemon) (w : World) (r : Record)
    (hr : w.record = some r) (hd : daemon.record_server_delivery_enabled = true)
    (hw : w.now_window < daemon.bypass_http_post_ts + 1800) :
    (w.header_values = true →
      (process_staged_record daemon w).trace
          = retention_calls daemon w ++ [Event.spool_record r] ∧
      (w.spool ≠ SpoolOutcome.alloc_failed →
        (process_staged_record daemon w).status = Status.returned true)) ∧
    (w.header_values = false →
      (process_staged_record daemon w).status = Status.undefined) ∧
    posted (process_staged_record daemon w).trace = false ∧
    (process_staged_record daemon w).status ≠ Status.returned false := by
  have hin : inside_direct_spool_window daemon w.now_window = true := by
    unfold inside_direct_spool_window
    rw [if_pos hw]
  cases hh : w.header_values with
  | false =>
    rw [process_header_undefined daemon w r hr hh]
    refine ⟨fun h => Bool.noConfusion h, fun _ => rfl, rfl, ?_⟩
    intro h
    cases h
  | true =>
    rw [process_direct_spool daemon w r hr hh hd hin]
    refine ⟨fun _ => ⟨rfl, ?_⟩, fun h => Bool.noConfusion h, ?_, ?_⟩
    · intro hs
      have hex : (spool_record daemon w).exited = false := by
        by_cases hb : spool_blocked daemon w
        · rw [spool_record_blocked daemon w hb]
        · rw [spool_record_open daemon w hb]
          split
          · exact absurd (by assumption) hs
          · rfl
          · rfl
          · rfl
          · rfl
      simp only
      rw [hex]
      rfl
    · simp only
      rw [posted_append, posted_retention_calls]
      rfl
    · simp only
      split
      · intro h; cases h
      · intro h; cases h

/-- Counterexample to C6 as stated: 1000 seconds after a failed post the sample record is
parsed, delivery is enabled, the run is inside the direct-spool window and spools the
record, and it returns `true`, not `false`. -/
theorem direct_spool_returns_false_counterexample :
    sample_world.record = some sample_record ∧
    bypassing_daemon.record_server_delivery_enabled = true ∧
    sample_world.now_window < bypassing_daemon.bypass_http_post_ts + 1800 ∧
    spooled (process_staged_record bypassing_daemon sample_world).trace = true ∧
    (process_staged_record bypassing_daemon sample_world).status = Status.returned true ∧
    (process_staged_record bypassing_daemon sample_world).status ≠ Status.returned false :=
  ⟨rfl, rfl, by decide, by decide, by decide, by decide⟩

/-- Witness for C6 as amended: the same run, which spools the record and returns `true`,
and the run on a record without header values, which is undefined. -/
theorem direct_spool_returns_true_witness :
    ((process_staged_record bypassing_daemon sample_world).trace
        = retention_calls bypassing_daemon sample_world
          ++ [Event.spool_record sample_record] ∧
      (sample_world.spool ≠ SpoolOutcome.alloc_failed →
        (process_staged_record bypassing_daemon sample_world).status
          = Status.returned true)) ∧
    (process_staged_record bypassing_daemon headerless_world).status = Status.undefined :=
  ⟨(direct_spool_returns_true bypassing_daemon sample_world sample_record rfl rfl
      (by decide)).1 rfl,
    (direct_spool_returns_true bypassing_daemon headerless_world sample_record rfl rfl
      (by decide)).2.1 rfl⟩

/-- Evaluation for C7: with a record limit of zero the record check rejects the sample
record, no post is attempted, the strategy is "spool", and the run stores the clock value
1000003 over the bypass timestamp 0. -/
theorem rate_limit_rejection_arms_bypass :
    limited_daemon.rate_limit_enabled = true ∧
    burst_limit_enabled limited_daemon.record_burst_limit = true ∧
    record_check limited_daemon sample_world = some false ∧
    spool_strategy_selected limited_daemon = true ∧
    posted (process_staged_record limited_daemon sample_world).trace = false ∧
    spooled (process_staged_record limited_daemon sample_world).trace = true ∧
    limited_daemon.bypass_http_post_ts = 0 ∧
    (process_staged_record limited_daemon sample_world).daemon.bypass_http_post_ts = 1000003 :=
  ⟨rfl, by decide, by decide, by decide, by decide, by decide, rfl, by decide⟩

/-- Statement of C8: a run of `process_staged_record` modifies `record_burst_array` or
`byte_burst_array` only if `post_record_http` was invoked and returned `true`; on every
other path all 60 slots of both arrays are unchanged. -/
theorem burst_arrays_change_only_when_sent (daemon : TelemPostDaemon) (w : World) :
    (((process_staged_record daemon w).daemon.record_burst_array ≠ daemon.record_burst_array ∨
        (process_staged_record daemon w).daemon.byte_burst_array ≠ daemon.byte_burst_array) →
      sent w (process_staged_record daemon w).trace) ∧
    (¬ sent w (process_staged_record daemon w).trace →
      ∀ i : Fin 60,
        (process_staged_record daemon w).daemon.record_burst_array i
          = daemon.record_burst_array i ∧
        (process_staged_record daemon w).daemon.byte_burst_array i
          = daemon.byte_burst_array i) := by
  constructor
  · intro hne
    by_contra hs
    obtain ⟨h1, h2⟩ := process_arrays_frame daemon w hs
    rcases hne with h | h
    · exact h h1
    · exact h h2
  · intro hs i
    obtain ⟨h1, h2⟩ := process_arrays_frame daemon w hs
    rw [h1, h2]
    exact ⟨rfl, rfl⟩

/-- Witness for C8: the failing run is not a successful send and leaves slot 46 of both
arrays as it was. -/
theorem burst_arrays_change_only_when_sent_witness :
    ¬ sent failing_world (process_staged_record sample_daemon failing_world).trace ∧
    (process_staged_record sample_daemon failing_world).daemon.record_burst_array (slot 46)
      = sample_daemon.record_burst_array (slot 46) ∧
    (process_staged_record sample_daemon failing_world).daemon.byte_burst_array (slot 46)
      = sample_daemon.byte_burst_array (slot 46) :=
  have hns : ¬ sent failing_world (process_staged_record sample_daemon failing_world).trace :=
    fun h => by
      obtain ⟨_, res, http_response, hw, hres⟩ := h
      cases hw
      revert hres
      decide
  ⟨hns, (burst_arrays_change_only_when_sent sample_daemon failing_world).2 hns (slot 46)⟩
/-- Statement of C9: when the HTTP post fails and `rate_limit_strategy` is not "spool",
the record is dropped: `spool_record` is not called, `current_spool_size`, the bypass
timestamp and both burst arrays are unchanged, and the pipeline returns `true`. -/
theorem failed_send_without_spool_drops (daemon : TelemPostDaemon) (w : World)
    (hfail : send_failed w (process_staged_record daemon w).trace)
    (hstrat : daemon.rate_limit_strategy ≠ "spool") :
    spooled (process_staged_record daemon w).trace = false ∧
    (process_staged_record daemon w).daemon.current_spool_size = daemon.current_spool_size ∧
    (process_staged_record daemon w).daemon.bypass_http_post_ts = daemon.bypass_http_post_ts ∧
    (process_staged_record daemon w).daemon.record_burst_array = daemon.record_burst_array ∧
    (process_staged_record daemon w).daemon.byte_burst_array = daemon.byte_burst_array ∧
    (process_staged_record daemon w).status = Status.returned true := by
  obtain ⟨r, f, daemon1, hr, hs, hrun⟩ := send_failed_path daemon w hfail
  obtain ⟨b, hb⟩ := rate_limit_stage_frame daemon w f daemon1 hs
  have hsel : spool_strategy_selected daemon1 = false := by
    unfold spool_strategy_selected
    rw [hb]
    simp only
    rw [if_neg hstrat]
  rw [hrun, dispatch_drop _ _ _ _ _ hsel, hb]
  refine ⟨?_, rfl, rfl, rfl, rfl, rfl⟩
  simp only
  rw [spooled_append, spooled_retention_calls]
  rfl

/-- Witness for C9: the collector answers 500 and the strategy is "drop". -/
theorem failed_send_without_spool_drops_witness :
    send_failed failing_world (process_staged_record drop_daemon failing_world).trace ∧
    drop_daemon.rate_limit_strategy ≠ "spool" ∧
    spooled (process_staged_record drop_daemon failing_world).trace = false ∧
    (process_staged_record drop_daemon failing_world).status = Status.returned true :=
  have hfail : send_failed failing_world
      (process_staged_record drop_daemon failing_world).trace :=
    ⟨by decide, 0, 500, rfl, by decide⟩
  have h := failed_send_without_spool_drops drop_daemon failing_world hfail (by decide)
  ⟨hfail, by decide, h.1, h.2.2.2.2.2⟩

/-- Statement of C10: `spool_record` changes `current_spool_size` in exactly one way.
When the cap is enabled (`spool_max_size != -1`) and the size has reached
`spool_max_size * 1024`, no file is created and the size is unchanged; after a successful
write of a file of `b` 512-byte blocks the size has grown by exactly `512 * b`; the size
never decreases, and it changes on no other path. -/
theorem spool_record_accounting (daemon : TelemPostDaemon) (w : World) :
    (w.spool_max_size ≠ -1 ∧ daemon.current_spool_size ≥ w.spool_max_size * 1024 →
      (spool_record daemon w).file = SpoolFile.not_created ∧
      (spool_record daemon w).daemon.current_spool_size = daemon.current_spool_size) ∧
    (∀ b : Nat, ¬ spool_blocked daemon w → w.spool = SpoolOutcome.written (some b) →
      (spool_record daemon w).file = SpoolFile.stored ∧
      (spool_record daemon w).daemon.current_spool_size
        = daemon.current_spool_size + 512 * (b : Int)) ∧
    daemon.current_spool_size ≤ (spool_record daemon w).daemon.current_spool_size ∧
    ((spool_record daemon w).daemon.current_spool_size ≠ daemon.current_spool_size →
      ∃ b : Nat, w.spool = SpoolOutcome.written (some b) ∧
        (spool_record daemon w).file = SpoolFile.stored ∧
        (spool_record daemon w).daemon.current_spool_size
          = daemon.current_spool_size + 512 * (b : Int)) := by
  refine ⟨?_, ?_, ?_, ?_⟩
  · intro h
    rw [spool_record_blocked daemon w (Or.inr ⟨h.1, Or.inr h.2⟩)]
    exact ⟨rfl, rfl⟩
  · intro b hb hw
    rw [spool_record_open daemon w hb, hw]
    refine ⟨rfl, ?_⟩
    show daemon.current_spool_size + (b : Int) * 512 = daemon.current_spool_size + 512 * (b : Int)
    omega
  · by_cases h : spool_blocked daemon w
    · rw [spool_record_blocked daemon w h]
    · rw [spool_record_open daemon w h]
      split <;> simp only [le_refl]
      omega
  · intro hne
    by_cases h : spool_blocked daemon w
    · rw [spool_record_blocked daemon w h] at hne
      exact absurd rfl hne
    · rw [spool_record_open daemon w h] at hne ⊢
      cases hs : w.spool with
      | alloc_failed => rw [hs] at hne; exact absurd rfl hne
      | mkstemp_failed => rw [hs] at hne; exact absurd rfl hne
      | fdopen_failed => rw [hs] at hne; exact absurd rfl hne
      | written st =>
        cases st with
        | none => rw [hs] at hne; exact absurd rfl hne
        | some b =>
          refine ⟨b, rfl, rfl, ?_⟩
          show daemon.current_spool_size + (b : Int) * 512
            = daemon.current_spool_size + 512 * (b : Int)
          omega

/-- Witness for C10: the sample spool write of 8 blocks adds 4096 bytes. -/
theorem spool_record_accounting_witness :
    ¬ spool_blocked sample_daemon sample_world ∧
    (spool_record sample_daemon sample_world).file = SpoolFile.stored ∧
    (spool_record sample_daemon sample_world).daemon.current_spool_size
      = sample_daemon.current_spool_size + 512 * ((8 : Nat) : Int) :=
  have hb : ¬ spool_blocked sample_daemon sample_world := by
    unfold spool_blocked
    decide
  ⟨hb, (spool_record_accounting sample_daemon sample_world).2.1 8 hb rfl⟩

/-! # Lemmas for the start-up and the limiter over time -/

/-- After `initialize_daemon` with an opened journal, the callback is armed exactly when
the journal came with it or the structure held `record_retention_enabled` before the
call; the field itself ends up with the configured value. -/
theorem initialize_daemon_callback (daemon : TelemPostDaemon) (cfg : Config) (st : Startup)
    (journal : TelemJournal) (hj : st.open_journal = some journal) (hs : st.signals = true) :
    ∃ daemon1, initialize_daemon daemon cfg st = some daemon1 ∧
      callback_armed daemon1
        = (journal.prune_entry_callback || daemon.record_retention_enabled) ∧
      daemon1.record_retention_enabled = cfg.record_retention_enabled := by
  unfold initialize_daemon
  simp only [hj, hs, if_true]
  refine ⟨_, rfl, ?_, rfl⟩
  cases hr : daemon.record_retention_enabled <;>
    simp [callback_armed, initialize_record_delivery, initialize_rate_limit]

/-- When the guard fires at some slot the loop visits, the loop ends in `return false`. -/
theorem check_loop_guard_fired (array : Slots) (incValue : Nat) :
    ∀ (n s count : Nat),
      (∃ k, k < n ∧ size_add (array (slot (s + k))) incValue ≥ SIZE_MAX) →
      check_loop array incValue n (s : Int) count = CheckLoop.guard_fired := by
  intro n
  induction n with
  | zero =>
    rintro s count ⟨k, hk, _⟩
    omega
  | succ n ih =>
    rintro s count ⟨k, hk, hg⟩
    rw [check_loop, read_nat]
    simp only
    by_cases h0 : size_add (array (slot s)) incValue ≥ SIZE_MAX
    · rw [if_pos h0]
    · rw [if_neg h0]
      have hs : ((s : Int) + 1) = ((s + 1 : Nat) : Int) := by push_cast; rfl
      rw [hs]
      apply ih
      cases k with
      | zero => exact absurd hg h0
      | succ k =>
        refine ⟨k, by omega, ?_⟩
        rwa [show s + 1 + k = s + (k + 1) by omega]

/-- A check that passes summed its whole window without a guard firing, and the `size_t`
sum plus the increment did not exceed the limit. -/
theorem rate_limit_check_passed (m W : Nat) (limit : Int) (arr : Slots) (inc : Nat)
    (hm : m < 60) (hW : W ≤ 60)
    (h : rate_limit_check (m : Int) limit (W : Int) arr inc = some true) :
    (∀ k, k < W → ¬ size_add (arr (slot ((60 + m - W + 1) % 60 + k))) inc ≥ SIZE_MAX) ∧
    ¬ size_add (window_sum arr ((60 + m - W + 1) % 60) W % 2 ^ 64) inc > to_size_t limit := by
  unfold rate_limit_check at h
  rw [window_start_nat m W hm hW, Int.toNat_ofNat] at h
  by_cases hg : ∃ k, k < W ∧ size_add (arr (slot ((60 + m - W + 1) % 60 + k))) inc ≥ SIZE_MAX
  · rw [check_loop_guard_fired arr inc W _ 0 hg] at h
    simp at h
  · have hg2 : ∀ k, k < W →
        size_add (arr (slot ((60 + m - W + 1) % 60 + k))) inc < SIZE_MAX := by
      intro k hk
      by_contra hc
      exact hg ⟨k, hk, by omega⟩
    rw [check_loop_finished arr inc W _ 0 (by decide) hg2] at h
    simp only [Nat.zero_add, Option.some.injEq] at h
    refine ⟨fun k hk hc => hg ⟨k, hk, hc⟩, ?_⟩
    intro hgt
    rw [if_pos hgt] at h
    cases h

/-! ## The window seen from its last minute -/

/-- The window of `rate_limit_check`, summed from the current minute backwards. -/
theorem window_sum_backwards (arr : Slots) (m W : Nat) (hm : m < 60) (hW1 : 1 ≤ W)
    (hW : W ≤ 60) :
    window_sum arr ((60 + m - W + 1) % 60) W
      = ∑ k in Finset.range W, arr (slot (60 + m - k)) := by
  unfold window_sum
  rw [← Finset.sum_range_reflect (fun k => arr (slot (60 + m - k))) W]
  apply Finset.sum_congr rfl
  intro i hi
  rw [Finset.mem_range] at hi
  congr 1
  apply Fin.ext
  show ((60 + m - W + 1) % 60 + i) % 60 = (60 + m - (W - 1 - i)) % 60
  omega

/-- Within a window of at most 60 minutes, different offsets land on different slots. -/
theorem slot_back_inj (m W : Nat) (hW : W ≤ 60) (k1 k2 : Nat) (h1 : k1 < W) (h2 : k2 < W)
    (h : slot (60 + m - k1) = slot (60 + m - k2)) : k1 = k2 := by
  have e : (60 + m - k1) % 60 = (60 + m - k2) % 60 := congrArg Fin.val h
  omega

/-- An array that is zero outside the window sums, over all 60 slots, to its window. -/
theorem sum_all_eq_window (arr : Slots) (m W : Nat) (hW : W ≤ 60)
    (hz : ∀ j, ¬ in_window m W j → arr j = 0) :
    ∑ j : Fin 60, arr j = ∑ k in Finset.range W, arr (slot (60 + m - k)) := by
  rw [← Finset.sum_image (s := Finset.range W) (g := fun k => slot (60 + m - k)) (f := arr)]
  · symm
    apply Finset.sum_subset (Finset.subset_univ _)
    intro j _ hj
    apply hz
    rintro ⟨k, hk, hjk⟩
    apply hj
    rw [Finset.mem_image]
    exact ⟨k, Finset.mem_range.mpr hk, hjk.symm⟩
  · intro k1 h1 k2 h2 h
    exact slot_back_inj m W hW k1 k2 (Finset.mem_range.mp h1) (Finset.mem_range.mp h2) h

/-- What `rate_limit_update` leaves, slot by slot, for a minute in `[0,59]` and a window
length in `[1,60]`. -/
theorem rate_limit_update_slots (m W : Nat) (arr : Slots) (inc : Nat) (hm : m < 60)
    (hW1 : 1 ≤ W) (hW : W ≤ 60) :
    ∃ arr1, rate_limit_update (m : Int) (W : Int) arr inc = some arr1 ∧
      arr1 (slot m) = size_add (arr (slot m)) inc ∧
      (∀ j, ¬ in_window m W j → arr1 j = 0) ∧
      (∀ j, in_window m W j → j ≠ slot m → arr1 j = arr j) := by
  unfold rate_limit_update
  simp only
  rw [read_in_range arr m hm]
  simp only
  rw [write_in_range arr m hm]
  simp only
  have hb : (TM_RATE_LIMIT_SLOTS - (W : Int)).toNat = 60 - W := by
    unfold TM_RATE_LIMIT_SLOTS; omega
  have hs : ((m : Int) + 1) = ((m + 1 : Nat) : Int) := by push_cast; rfl
  rw [hb, hs]
  obtain ⟨a1, h1, h2⟩ := zero_loop_nat (60 - W) (m + 1)
    (Function.update arr (slot m) (size_add (arr (slot m)) inc))
  have hmw : in_window m W (slot m) := ⟨0, by omega, by
    apply Fin.ext
    show m % 60 = (60 + m - 0) % 60
    omega⟩
  refine ⟨a1, h1, ?_, ?_, ?_⟩
  · rw [h2, if_neg, Function.update_same]
    rw [cleared_iff_not_in_window m W hm hW1 hW]
    exact fun h => h hmw
  · intro j hj
    rw [h2, if_pos ((cleared_iff_not_in_window m W hm hW1 hW j).mpr hj)]
  · intro j hj hne
    rw [h2, if_neg, Function.update_noteq hne]
    rw [cleared_iff_not_in_window m W hm hW1 hW]
    exact fun h => h hj

/-- After an update whose addition does not wrap, the 60 slots sum to the old window plus
the increment. -/
theorem sum_all_after_update (m W : Nat) (arr arr1 : Slots) (inc : Nat) (hm : m < 60)
    (hW1 : 1 ≤ W) (hW : W ≤ 60)
    (hslot : arr1 (slot m) = arr (slot m) + inc)
    (hout : ∀ j, ¬ in_window m W j → arr1 j = 0)
    (hin : ∀ j, in_window m W j → j ≠ slot m → arr1 j = arr j) :
    ∑ j : Fin 60, arr1 j = window_sum arr ((60 + m - W + 1) % 60) W + inc := by
  rw [sum_all_eq_window arr1 m W hW hout, window_sum_backwards arr m W hm hW1 hW]
  have hterm : ∀ k, k ∈ Finset.range W →
      arr1 (slot (60 + m - k)) = arr (slot (60 + m - k)) + (if k = 0 then inc else 0) := by
    intro k hk
    rw [Finset.mem_range] at hk
    by_cases h0 : k = 0
    · subst h0
      have e : slot (60 + m - 0) = slot m := by
        apply Fin.ext
        show (60 + m - 0) % 60 = m % 60
        omega
      rw [e, hslot, if_pos rfl]
    · rw [if_neg h0, Nat.add_zero]
      apply hin _ ⟨k, hk, rfl⟩
      intro he
      have e : (60 + m - k) % 60 = m % 60 := congrArg Fin.val he
      omega
  rw [Finset.sum_congr rfl hterm, Finset.sum_add_distrib, Finset.sum_ite_eq']
  rw [if_pos (Finset.mem_range.mpr (by omega))]

/-- One slot of the window is at most the window's sum. -/
theorem slot_le_window_sum (arr : Slots) (m W : Nat) (hm : m < 60) (hW1 : 1 ≤ W)
    (hW : W ≤ 60) : arr (slot m) ≤ window_sum arr ((60 + m - W + 1) % 60) W := by
  rw [window_sum_backwards arr m W hm hW1 hW]
  have e : slot (60 + m - 0) = slot m := by
    apply Fin.ext
    show (60 + m - 0) % 60 = m % 60
    omega
  rw [← e]
  exact Finset.single_le_sum (f := fun k => arr (slot (60 + m - k)))
    (fun _ _ => Nat.zero_le _) (Finset.mem_range.mpr (by omega))

/-! ## One record -/

/-- A record is either rejected, leaving the limiter as it was, or accepted and
recorded. -/
theorem limiter_step_cases (W : Nat) (limit : Int) (inc : Nat) (s : Limiter) (t : Nat)
    (hW : W ≤ 60) :
    limiter_step W limit inc s t = some s ∨
    ∃ arr1, rate_limit_check ((t % 60 : Nat) : Int) limit (W : Int) s.array inc = some true ∧
      rate_limit_update ((t % 60 : Nat) : Int) (W : Int) s.array inc = some arr1 ∧
      limiter_step W limit inc s t = some ⟨arr1, t :: s.accepted⟩ := by
  obtain ⟨b, hb⟩ := rate_limit_check_defined ((t % 60 : Nat) : Int) (W : Int) limit s.array inc
    (by omega) (by omega) (by omega) (by omega)
  obtain ⟨arr1, ha⟩ := rate_limit_update_defined ((t % 60 : Nat) : Int) (W : Int) s.array inc
    (by omega) (by omega)
  unfold limiter_step
  rw [hb]
  cases b with
  | false => exact Or.inl rfl
  | true =>
    right
    refine ⟨arr1, rfl, ha, ?_⟩
    simp only
    rw [ha]

/-- What an accepted record does when no addition wraps: the window plus the increment
was within the limit, the slot of the minute grew by the increment, the rest of the window
is unchanged, the slots outside it are zero, and the 60 slots sum to the old window plus
the increment. -/
theorem accept_facts (m W : Nat) (limit : Int) (arr arr1 : Slots) (inc : Nat) (hm : m < 60)
    (hW1 : 1 ≤ W) (hW : W ≤ 60) (hl0 : 0 ≤ limit) (hl1 : limit < 2 ^ 63)
    (hfit : window_sum arr ((60 + m - W + 1) % 60) W + inc < 2 ^ 64)
    (hc : rate_limit_check (m : Int) limit (W : Int) arr inc = some true)
    (hu : rate_limit_update (m : Int) (W : Int) arr inc = some arr1) :
    ((window_sum arr ((60 + m - W + 1) % 60) W + inc : Nat) : Int) ≤ limit ∧
    arr1 (slot m) = arr (slot m) + inc ∧
    (∀ j, ¬ in_window m W j → arr1 j = 0) ∧
    (∀ j, in_window m W j → j ≠ slot m → arr1 j = arr j) ∧
    ∑ j : Fin 60, arr1 j = window_sum arr ((60 + m - W + 1) % 60) W + inc := by
  obtain ⟨_, hle⟩ := rate_limit_check_passed m W limit arr inc hm hW hc
  have hws : window_sum arr ((60 + m - W + 1) % 60) W % 2 ^ 64
      = window_sum arr ((60 + m - W + 1) % 60) W := Nat.mod_eq_of_lt (by omega)
  rw [hws, to_size_t_nonneg limit hl0 hl1] at hle
  unfold size_add at hle
  rw [Nat.mod_eq_of_lt hfit] at hle
  obtain ⟨a1, h1, hslot, hout, hin⟩ := rate_limit_update_slots m W arr inc hm hW1 hW
  rw [hu] at h1
  cases h1
  have hsl := slot_le_window_sum arr m W hm hW1 hW
  have hslot2 : arr1 (slot m) = arr (slot m) + inc := by
    rw [hslot]
    unfold size_add
    exact Nat.mod_eq_of_lt (by omega)
  refine ⟨by omega, hslot2, hout, hin, ?_⟩
  exact sum_all_after_update m W arr arr1 inc hm hW1 hW hslot2 hout hin

/-! ## A fixed minute -/

/-- The window of an array that is zero except in the slot of the current minute sums to
that slot. -/
theorem window_sum_single (m W c : Nat) (hm : m < 60) (hW1 : 1 ≤ W) (hW : W ≤ 60) :
    window_sum (fun j => if j = slot m then c else 0) ((60 + m - W + 1) % 60) W = c := by
  rw [window_sum_backwards _ m W hm hW1 hW]
  rw [Finset.sum_eq_single 0]
  · have e : slot (60 + m - 0) = slot m := by
      apply Fin.ext
      show (60 + m - 0) % 60 = m % 60
      omega
    rw [e, if_pos rfl]
  · intro k hk h0
    rw [Finset.mem_range] at hk
    rw [if_neg]
    intro he
    have e : (60 + m - k) % 60 = m % 60 := congrArg Fin.val he
    omega
  · intro h
    exact absurd (Finset.mem_range.mpr (by omega)) h

/-- At a fixed minute the array stays zero except in the slot of that minute, which
counts the accepted records; the count never passes the limit. -/
theorem fixed_minute_invariant (m W : Nat) (limit : Int) (hm : m < 60) (hW1 : 1 ≤ W)
    (hW : W ≤ 60) (hl0 : 0 ≤ limit) (hl1 : limit < 2 ^ 63) :
    ∀ (n : Nat) (s : Limiter),
      s.array = (fun j => if j = slot m then s.accepted.length else 0) →
      (s.accepted.length : Int) ≤ limit →
      ∃ s1, limiter_run W limit 1 s (List.replicate n m) = some s1 ∧
        s1.array = (fun j => if j = slot m then s1.accepted.length else 0) ∧
        (s1.accepted.length : Int) ≤ limit ∧
        s.accepted.length ≤ s1.accepted.length ∧
        s1.accepted.length ≤ s.accepted.length + n := by
  intro n
  induction n with
  | zero =>
    intro s ha hl
    exact ⟨s, rfl, ha, hl, le_refl _, le_refl _⟩
  | succ n ih =>
    intro s ha hl
    rw [List.replicate_succ, limiter_run]
    have hmm : m % 60 = m := Nat.mod_eq_of_lt hm
    rcases limiter_step_cases W limit 1 s m hW with hstep | ⟨arr1, hc, hu, hstep⟩
    · rw [hstep]
      simp only
      obtain ⟨s1, h1, h2, h3, h4, h5⟩ := ih s ha hl
      exact ⟨s1, h1, h2, h3, h4, by omega⟩
    · rw [hstep]
      simp only
      rw [hmm] at hc hu
      have hws : window_sum s.array ((60 + m - W + 1) % 60) W = s.accepted.length := by
        rw [ha]
        exact window_sum_single m W _ hm hW1 hW
      obtain ⟨hle, hslot, hout, hin, _⟩ := accept_facts m W limit s.array arr1 1 hm hW1 hW
        hl0 hl1 (by rw [hws]; omega) hc hu
      rw [hws] at hle
      have ha1 : arr1 = (fun j => if j = slot m then (m :: s.accepted).length else 0) := by
        funext j
        by_cases hj : j = slot m
        · rw [if_pos hj, hj, hslot, ha]
          simp
        · rw [if_neg hj]
          by_cases hw : in_window m W j
          · rw [hin j hw hj, ha]
            simp only
            rw [if_neg hj]
          · exact hout j hw
      obtain ⟨s1, h1, h2, h3, h4, h5⟩ := ih ⟨arr1, m :: s.accepted⟩ ha1
        (by simp only [List.length_cons]; push_cast; push_cast at hle; omega)
      refine ⟨s1, h1, h2, h3, ?_, ?_⟩
      · simp only [List.length_cons] at h4
        omega
      · simp only [List.length_cons] at h5
        omega

/-! ## The accepted records of a window -/

/-- The accepted records of the window, counted minute by minute backwards from `t`. -/
theorem accepted_in_window_by_minute (W t : Nat) : ∀ (l : List Nat),
    accepted_in_window l W t
      = ∑ k in Finset.range W, (if k ≤ t then l.count (t - k) else 0) := by
  intro l
  induction l with
  | nil => simp [accepted_in_window]
  | cons a l ih =>
    unfold accepted_in_window at ih ⊢
    have hsplit : ∀ k, k ∈ Finset.range W →
        (if k ≤ t then (a :: l).count (t - k) else 0)
          = (if k ≤ t then l.count (t - k) else 0)
            + (if k = t - a then (if t < a + W ∧ a ≤ t then 1 else 0) else 0) := by
      intro k hk
      rw [Finset.mem_range] at hk
      by_cases hkt : k ≤ t
      · rw [if_pos hkt, if_pos hkt, List.count_cons]
        congr 1
        by_cases hak : a = t - k
        · have h1 : k = t - a := by omega
          have h2 : t < a + W ∧ a ≤ t := by omega
          rw [if_pos h1, if_pos h2]
          simp [hak]
        · have h3 : ¬ (k = t - a ∧ (t < a + W ∧ a ≤ t)) := by omega
          have h4 : (if k = t - a then (if t < a + W ∧ a ≤ t then 1 else 0) else 0) = 0 := by
            by_cases h1 : k = t - a
            · rw [if_pos h1, if_neg (fun h2 => h3 ⟨h1, h2⟩)]
            · rw [if_neg h1]
          rw [h4]
          simp [hak]
      · rw [if_neg hkt, if_neg hkt]
        have h1 : ¬ k = t - a := by omega
        rw [if_neg h1]
    rw [Finset.sum_congr rfl hsplit, Finset.sum_add_distrib, ← ih, Finset.sum_ite_eq']
    by_cases hin : t < a + W ∧ a ≤ t
    · have hmem : t - a ∈ Finset.range W := Finset.mem_range.mpr (by omega)
      rw [if_pos hmem, if_pos hin, List.filter_cons_of_pos (by simpa using hin),
        List.length_cons]
    · have h0 : (if t - a ∈ Finset.range W then (if t < a + W ∧ a ≤ t then 1 else 0) else 0)
          = 0 := by
        rw [if_neg hin]
        simp
      rw [h0, List.filter_cons_of_neg (by simpa using hin)]
      rfl

/-- A record accepted after `t` does not belong to the window that ends at `t`. -/
theorem accepted_in_window_later (l : List Nat) (W t a : Nat) (h : t < a) :
    accepted_in_window (a :: l) W t = accepted_in_window l W t := by
  unfold accepted_in_window
  rw [List.filter_cons_of_neg]
  simp only [decide_eq_true_eq, not_and, not_le]
  intro _
  exact h

/-- When nothing was accepted after `t`, a window that ends later than `t` holds no more
accepted records than the window that ends at `t`. -/
theorem accepted_in_window_mono (W t t1 : Nat) (ht : t ≤ t1) : ∀ (l : List Nat),
    (∀ a, a ∈ l → a ≤ t) → accepted_in_window l W t1 ≤ accepted_in_window l W t := by
  intro l
  induction l with
  | nil => intro _; simp [accepted_in_window]
  | cons a l ih =>
    intro hall
    have ha : a ≤ t := hall a (List.mem_cons_self _ _)
    have hl := ih (fun b hb => hall b (List.mem_cons_of_mem _ hb))
    unfold accepted_in_window at hl ⊢
    by_cases h1 : t1 < a + W ∧ a ≤ t1
    · have h2 : t < a + W ∧ a ≤ t := by omega
      rw [List.filter_cons_of_pos (by simpa using h1),
        List.filter_cons_of_pos (by simpa using h2), List.length_cons, List.length_cons]
      omega
    · rw [List.filter_cons_of_neg (by simpa using h1)]
      by_cases h2 : t < a + W ∧ a ≤ t
      · rw [List.filter_cons_of_pos (by simpa using h2), List.length_cons]
        omega
      · rw [List.filter_cons_of_neg (by simpa using h2)]
        exact hl

/-- A minute less than `W` before `t` has its slot in the window of `t`. -/
theorem slot_of_recent_minute (t k : Nat) (hk : k ≤ t) (hk60 : k < 60) :
    slot (t - k) = slot (60 + t % 60 - k) := by
  apply Fin.ext
  show (t - k) % 60 = (60 + t % 60 - k) % 60
  omega

/-! ## Soundness of the limiter over time -/

theorem slot_mod (t : Nat) : slot (t % 60) = slot t := by
  apply Fin.ext
  show t % 60 % 60 = t % 60
  omega

/-- The bookkeeping that an accepted record at minute `t` preserves: every minute less
than `W` before `t` still has its accepted increments in its slot. -/
theorem accept_keeps_recent (W inc t : Nat) (acc : List Nat) (arr arr1 : Slots)
    (hW : W ≤ 60)
    (hle : ∀ a, a ∈ acc → a ≤ t)
    (hold : ∀ T, acc.head? = some T → ∀ a, T < a + W → acc.count a * inc ≤ arr (slot a))
    (hslot : arr1 (slot (t % 60)) = arr (slot (t % 60)) + inc)
    (hin : ∀ j, in_window (t % 60) W j → j ≠ slot (t % 60) → arr1 j = arr j) :
    ∀ a, t < a + W → (t :: acc).count a * inc ≤ arr1 (slot a) := by
  intro a ha
  by_cases hat : t < a
  · have hnot : a ∉ t :: acc := by
      intro hmem
      rcases List.mem_cons.mp hmem with h | h
      · omega
      · have := hle a h
        omega
    rw [List.count_eq_zero_of_not_mem hnot]
    omega
  · have hbound : acc.count a * inc ≤ arr (slot a) := by
      cases hacc : acc with
      | nil => simp
      | cons T0 rest =>
        rw [← hacc]
        apply hold T0 (by rw [hacc]; rfl)
        have := hle T0 (by rw [hacc]; exact List.mem_cons_self _ _)
        omega
    by_cases heq : a = t
    · subst heq
      rw [List.count_cons_self, ← slot_mod a, hslot, slot_mod a, Nat.add_mul, Nat.one_mul]
      omega
    · rw [List.count_cons_of_ne heq]
      have hw : in_window (t % 60) W (slot a) := by
        refine ⟨t - a, by omega, ?_⟩
        have := slot_of_recent_minute t (t - a) (by omega) (by omega)
        rw [show t - (t - a) = a by omega] at this
        exact this
      have hne : slot a ≠ slot (t % 60) := by
        intro he
        have e : a % 60 = t % 60 % 60 := congrArg Fin.val he
        omega
      rw [hin (slot a) hw hne]
      exact hbound

/-- After an accepted record at minute `t`, the increments accepted in the window of `t`
are at most the sum of the 60 slots. -/
theorem recent_le_sum_all (W inc t : Nat) (acc : List Nat) (arr1 : Slots) (hW : W ≤ 60)
    (hrec : ∀ a, t < a + W → acc.count a * inc ≤ arr1 (slot a))
    (hout : ∀ j, ¬ in_window (t % 60) W j → arr1 j = 0) :
    accepted_in_window acc W t * inc ≤ ∑ j : Fin 60, arr1 j := by
  rw [sum_all_eq_window arr1 (t % 60) W hW hout, accepted_in_window_by_minute, Finset.sum_mul]
  apply Finset.sum_le_sum
  intro k hk
  rw [Finset.mem_range] at hk
  by_cases hkt : k ≤ t
  · rw [if_pos hkt, ← slot_of_recent_minute t k hkt (by omega)]
    exact hrec (t - k) (by omega)
  · rw [if_neg hkt, Nat.zero_mul]
    exact Nat.zero_le _

/-- A record of the pipeline is either left unrecorded, leaving the limiter as it was, or
its check passed and it was recorded. -/
theorem gated_step_cases (W : Nat) (limit : Int) (inc : Nat) (s : Limiter) (t : Nat)
    (goes : Bool) (hW : W ≤ 60) :
    gated_step W limit inc s t goes = some s ∨
    ∃ arr1, goes = true ∧
      rate_limit_check ((t % 60 : Nat) : Int) limit (W : Int) s.array inc = some true ∧
      rate_limit_update ((t % 60 : Nat) : Int) (W : Int) s.array inc = some arr1 ∧
      gated_step W limit inc s t goes = some ⟨arr1, t :: s.accepted⟩ := by
  obtain ⟨b, hb⟩ := rate_limit_check_defined ((t % 60 : Nat) : Int) (W : Int) limit s.array inc
    (by omega) (by omega) (by omega) (by omega)
  obtain ⟨arr1, ha⟩ := rate_limit_update_defined ((t % 60 : Nat) : Int) (W : Int) s.array inc
    (by omega) (by omega)
  unfold gated_step
  rw [hb]
  cases b with
  | false => exact Or.inl rfl
  | true =>
    cases goes with
    | false => exact Or.inl rfl
    | true =>
      right
      refine ⟨arr1, rfl, rfl, ha, ?_⟩
      simp only [if_true]
      rw [ha]

/-- A record that always goes through once its check has passed is a step of
`limiter_run`. -/
theorem limiter_step_eq_gated (W : Nat) (limit : Int) (inc : Nat) (s : Limiter) (t : Nat) :
    limiter_step W limit inc s t = gated_step W limit inc s t true := by
  unfold limiter_step gated_step
  simp only [if_true]

/-- The run `limiter_run` is the run of the pipeline in which every record goes through
once its check has passed. -/
theorem limiter_run_eq_gated (W : Nat) (limit : Int) (inc : Nat) :
    ∀ (ts : List Nat) (s : Limiter),
      limiter_run W limit inc s ts
        = gated_run W limit inc s (ts.map (fun t => (t, true))) := by
  intro ts
  induction ts with
  | nil => intro s; rfl
  | cons t ts ih =>
    intro s
    rw [limiter_run, List.map_cons, gated_run, limiter_step_eq_gated]
    cases gated_step W limit inc s t true with
    | none => rfl
    | some s1 => exact ih s1

/-- The invariant of the limiter along records of the pipeline at non-decreasing
minutes, with the limit given as a natural number. -/
theorem gated_run_invariant (W L inc : Nat) (hW1 : 1 ≤ W) (hW : W ≤ 60)
    (hL : L < 2 ^ 63) :
    ∀ (rs : List (Nat × Bool)) (s : Limiter),
      (rs.map Prod.fst).Pairwise (fun a b => a ≤ b) →
      (∀ a, a ∈ s.accepted → ∀ r, r ∈ rs → a ≤ r.1) →
      (∀ T, s.accepted.head? = some T → ∀ a, T < a + W →
        s.accepted.count a * inc ≤ s.array (slot a)) →
      (∀ t, accepted_in_window s.accepted W t * inc ≤ L) →
      ∑ j : Fin 60, s.array j ≤ L →
      no_overflow W (L : Int) inc s rs = true →
      ∃ s1, gated_run W (L : Int) inc s rs = some s1 ∧
        (∀ T, s1.accepted.head? = some T → ∀ a, T < a + W →
          s1.accepted.count a * inc ≤ s1.array (slot a)) ∧
        (∀ t, accepted_in_window s1.accepted W t * inc ≤ L) ∧
        ∑ j : Fin 60, s1.array j ≤ L := by
  intro rs
  induction rs with
  | nil =>
    intro s _ _ h2 h4 h3 _
    exact ⟨s, rfl, h2, h4, h3⟩
  | cons r rs ih =>
    obtain ⟨t, goes⟩ := r
    intro s hsort h1 h2 h4 h3 hfit
    rw [List.map_cons, List.pairwise_cons] at hsort
    rw [no_overflow, Bool.and_eq_true, decide_eq_true_eq] at hfit
    obtain ⟨hfit1, hfit2⟩ := hfit
    rw [gated_run]
    have hlater : ∀ r1, r1 ∈ rs → t ≤ r1.1 :=
      fun r1 hr1 => hsort.1 r1.1 (List.mem_map_of_mem Prod.fst hr1)
    rcases gated_step_cases W (L : Int) inc s t goes hW with
      hstep | ⟨arr1, _, hc, hu, hstep⟩
    · simp only at hfit2 ⊢
      rw [hstep] at hfit2 ⊢
      simp only at hfit2 ⊢
      exact ih s hsort.2 (fun a ha r1 hr1 => h1 a ha r1 (List.mem_cons_of_mem _ hr1))
        h2 h4 h3 hfit2
    · simp only at hfit1 hfit2 ⊢
      rw [hstep] at hfit2 ⊢
      simp only at hfit2 ⊢
      have hm : t % 60 < 60 := Nat.mod_lt _ (by decide)
      obtain ⟨hle, hslot, hout, hin, hsum⟩ := accept_facts (t % 60) W (L : Int) s.array arr1
        inc hm hW1 hW (by omega) (by exact_mod_cast hL) hfit1 hc hu
      have hleN : window_sum s.array ((60 + t % 60 - W + 1) % 60) W + inc ≤ L := by
        exact_mod_cast hle
      have hall : ∀ a, a ∈ s.accepted → a ≤ t :=
        fun a ha => h1 a ha (t, goes) (List.mem_cons_self _ _)
      have hrec := accept_keeps_recent W inc t s.accepted s.array arr1 hW hall h2 hslot hin
      have hsumL : ∑ j : Fin 60, arr1 j ≤ L := by rw [hsum]; exact hleN
      apply ih ⟨arr1, t :: s.accepted⟩ hsort.2
      · intro a ha r1 hr1
        rcases List.mem_cons.mp ha with h | h
        · rw [h]; exact hlater r1 hr1
        · exact h1 a h r1 (List.mem_cons_of_mem _ hr1)
      · intro T hT a ha
        simp only [List.head?_cons, Option.some.injEq] at hT
        subst hT
        exact hrec a ha
      · intro t1
        by_cases ht1 : t1 < t
        · simp only
          rw [accepted_in_window_later s.accepted W t1 t ht1]
          exact h4 t1
        · have hmono := accepted_in_window_mono W t t1 (by omega) (t :: s.accepted)
            (by
              intro a ha
              rcases List.mem_cons.mp ha with h | h
              · omega
              · exact hall a h)
          have hr := recent_le_sum_all W inc t (t :: s.accepted) arr1 hW hrec hout
          calc accepted_in_window (t :: s.accepted) W t1 * inc
              ≤ accepted_in_window (t :: s.accepted) W t * inc :=
                Nat.mul_le_mul_right _ hmono
            _ ≤ ∑ j : Fin 60, arr1 j := hr
            _ ≤ L := hsumL
      · exact hsumL
      · exact hfit2

/-! ## The pipeline as a step of the gated run -/

/-- What a run of `process_staged_record` does to the record axis is a step of the gated
run: with the limiter on and the record limit enabled, the record array after the run is
the array of `gated_step` for some value of the flag `goes`, and the run records the
record only when its record check passed. -/
theorem process_record_axis_gated (daemon : TelemPostDaemon) (w : World) (W t : Nat)
    (acc : List Nat) (he : daemon.rate_limit_enabled = true)
    (hlim : burst_limit_enabled daemon.record_burst_limit = true)
    (hW : daemon.record_window_length = (W : Int)) (hW60 : W ≤ 60)
    (hm : w.tm_min = ((t % 60 : Nat) : Int)) :
    ∃ goes s1, gated_step W daemon.record_burst_limit TM_RECORD_COUNTER
          ⟨daemon.record_burst_array, acc⟩ t goes = some s1 ∧
      s1.array = (process_staged_record daemon w).daemon.record_burst_array ∧
      (s1.accepted = acc ∨ s1.accepted = t :: acc) := by
  obtain ⟨b, hb⟩ := rate_limit_check_defined ((t % 60 : Nat) : Int) (W : Int)
    daemon.record_burst_limit daemon.record_burst_array TM_RECORD_COUNTER
    (by omega) (by omega) (by omega) (by omega)
  by_cases hsent : sent w (process_staged_record daemon w).trace
  · obtain ⟨hp, res, http_response, hpost, hres⟩ := hsent
    obtain ⟨r, f, d1, hr, hh, hd, hwin, hl, hs, hc⟩ := posted_path daemon w hp
    obtain ⟨hfe, _, hrc, _, hd1⟩ := rate_limit_stage_on daemon w f d1 he hs
    rw [hlim] at hfe
    rw [if_pos hlim, hm, hW] at hrc
    have hd1e : d1 = daemon := by
      rw [hd1, hlim]
      rfl
    subst hd1e
    have hrcp : f.record_check_passed = true := by
      rw [he] at hc
      cases hf : f.record_check_passed with
      | true => rfl
      | false => rw [hf] at hc; simp at hc
    rw [hrcp] at hrc
    obtain ⟨ra, hra⟩ := rate_limit_update_defined ((t % 60 : Nat) : Int) (W : Int)
      d1.record_burst_array TM_RECORD_COUNTER (by omega) (by omega)
    obtain ⟨ba, hba⟩ := rate_limit_update_defined ((t % 60 : Nat) : Int)
      d1.byte_window_length d1.byte_burst_array w.RECORD_SIZE_LEN (by omega) (by omega)
    have hus : ∃ d2, update_stage d1 w f = some d2 ∧ d2.record_burst_array = ra := by
      unfold update_stage
      simp only
      rw [hfe, if_pos rfl, hm, hW, hra]
      simp only
      cases f.byte_burst_enabled with
      | false => exact ⟨_, rfl, rfl⟩
      | true =>
        rw [if_pos rfl, hba]
        exact ⟨_, rfl, rfl⟩
    obtain ⟨d2, hd2, hd2a⟩ := hus
    refine ⟨true, ⟨ra, t :: acc⟩, ?_, ?_, Or.inr rfl⟩
    · unfold gated_step
      simp only
      rw [hrc]
      simp only [if_true]
      rw [hra]
    · rw [process_posted d1 w r f d1 res http_response hr hh hd hwin hl hs hc hpost, hres,
        dispatch_sent, hd2]
      exact hd2a.symm
  · obtain ⟨h1, _⟩ := process_arrays_frame daemon w hsent
    refine ⟨false, ⟨daemon.record_burst_array, acc⟩, ?_, h1.symm, Or.inl rfl⟩
    unfold gated_step
    simp only
    rw [hb]
    cases b <;> rfl

/-- The same for the byte axis, whose increment is `RECORD_SIZE_LEN`. -/
theorem process_byte_axis_gated (daemon : TelemPostDaemon) (w : World) (W t : Nat)
    (acc : List Nat) (he : daemon.rate_limit_enabled = true)
    (hlim : burst_limit_enabled daemon.byte_burst_limit = true)
    (hW : daemon.byte_window_length = (W : Int)) (hW60 : W ≤ 60)
    (hm : w.tm_min = ((t % 60 : Nat) : Int)) :
    ∃ goes s1, gated_step W daemon.byte_burst_limit w.RECORD_SIZE_LEN
          ⟨daemon.byte_burst_array, acc⟩ t goes = some s1 ∧
      s1.array = (process_staged_record daemon w).daemon.byte_burst_array ∧
      (s1.accepted = acc ∨ s1.accepted = t :: acc) := by
  obtain ⟨b, hb⟩ := rate_limit_check_defined ((t % 60 : Nat) : Int) (W : Int)
    daemon.byte_burst_limit daemon.byte_burst_array w.RECORD_SIZE_LEN
    (by omega) (by omega) (by omega) (by omega)
  by_cases hsent : sent w (process_staged_record daemon w).trace
  · obtain ⟨hp, res, http_response, hpost, hres⟩ := hsent
    obtain ⟨r, f, d1, hr, hh, hd, hwin, hl, hs, hc⟩ := posted_path daemon w hp
    obtain ⟨_, hfe, _, hbc, hd1⟩ := rate_limit_stage_on daemon w f d1 he hs
    rw [hlim] at hfe
    rw [if_pos hlim, hm, hW] at hbc
    have hd1e : d1 = daemon := by
      rw [hd1, hlim]
      simp
    subst hd1e
    have hbcp : f.byte_check_passed = true := by
      rw [he] at hc
      cases hf : f.byte_check_passed with
      | true => rfl
      | false => rw [hf] at hc; simp at hc
    rw [hbcp] at hbc
    obtain ⟨ra, hra⟩ := rate_limit_update_defined ((t % 60 : Nat) : Int)
      d1.record_window_length d1.record_burst_array TM_RECORD_COUNTER (by omega) (by omega)
    obtain ⟨ba, hba⟩ := rate_limit_update_defined ((t % 60 : Nat) : Int) (W : Int)
      d1.byte_burst_array w.RECORD_SIZE_LEN (by omega) (by omega)
    have hus : ∃ d2, update_stage d1 w f = some d2 ∧ d2.byte_burst_array = ba := by
      unfold update_stage
      simp only
      rw [hfe, hm, hW, hba]
      cases f.record_burst_enabled with
      | false => exact ⟨_, rfl, rfl⟩
      | true =>
        rw [if_pos rfl, hra]
        exact ⟨_, rfl, rfl⟩
    obtain ⟨d2, hd2, hd2a⟩ := hus
    refine ⟨true, ⟨ba, t :: acc⟩, ?_, ?_, Or.inr rfl⟩
    · unfold gated_step
      simp only
      rw [hbc]
      simp only [if_true]
      rw [hba]
    · rw [process_posted d1 w r f d1 res http_response hr hh hd hwin hl hs hc hpost, hres,
        dispatch_sent, hd2]
      exact hd2a.symm
  · obtain ⟨_, h2⟩ := process_arrays_frame daemon w hsent
    refine ⟨false, ⟨daemon.byte_burst_array, acc⟩, ?_, h2.symm, Or.inl rfl⟩
    unfold gated_step
    simp only
    rw [hb]
    cases b <;> rfl

/-! ## The loops with their own tests -/

/-- With more fuel than iterations, the summation loop run on its own test ends as the
counted loop does; it uses one index in `[0,59]` per iteration, at most `n` of them, and
exactly `n` unless the guard returned early. -/
theorem check_loop_guarded_spec (array : Slots) (incValue : Nat) :
    ∀ (n fuel s count : Nat) (used : List Int), n < fuel →
      ∃ idxs, check_loop_guarded array incValue ((s : Int) + (n : Int)) fuel (s : Int) count used
          = some (check_loop array incValue n (s : Int) count, used ++ idxs) ∧
        (∀ idx, idx ∈ idxs → 0 ≤ idx ∧ idx < 60) ∧
        idxs.length ≤ n ∧
        (check_loop array incValue n (s : Int) count ≠ CheckLoop.guard_fired →
          idxs.length = n) := by
  intro n
  induction n with
  | zero =>
    intro fuel s count used hf
    obtain ⟨f, rfl⟩ : ∃ f, fuel = f + 1 := ⟨fuel - 1, by omega⟩
    refine ⟨[], ?_, by simp, by simp, by simp⟩
    rw [check_loop_guarded, if_neg (by omega), check_loop, List.append_nil]
  | succ n ih =>
    intro fuel s count used hf
    obtain ⟨f, rfl⟩ : ∃ f, fuel = f + 1 := ⟨fuel - 1, by omega⟩
    have hidx : (0 : Int) ≤ c_rem (s : Int) TM_RATE_LIMIT_SLOTS ∧
        c_rem (s : Int) TM_RATE_LIMIT_SLOTS < 60 := by
      rw [c_rem_nat]
      omega
    rw [check_loop_guarded, if_pos (by omega), check_loop, read_nat]
    simp only
    by_cases hg : size_add (array (slot s)) incValue ≥ SIZE_MAX
    · rw [if_pos hg, if_pos hg]
      refine ⟨[c_rem (s : Int) TM_RATE_LIMIT_SLOTS], rfl, ?_, by simp, by simp⟩
      intro idx hmem
      rw [List.mem_singleton] at hmem
      rw [hmem]
      exact hidx
    · rw [if_neg hg, if_neg hg]
      have hs : ((s : Int) + 1) = ((s + 1 : Nat) : Int) := by push_cast; rfl
      have hhi : ((s : Int) + ((n + 1 : Nat) : Int)) = ((s + 1 : Nat) : Int) + (n : Int) := by
        push_cast; omega
      rw [hs, hhi]
      obtain ⟨idxs, h1, h2, h3, h4⟩ := ih f (s + 1) (size_add count (array (slot s)))
        (used ++ [c_rem (s : Int) TM_RATE_LIMIT_SLOTS]) (by omega)
      refine ⟨c_rem (s : Int) TM_RATE_LIMIT_SLOTS :: idxs, ?_, ?_, ?_, ?_⟩
      · rw [h1, List.append_assoc]
        rfl
      · intro idx hmem
        rcases List.mem_cons.mp hmem with h | h
        · rw [h]; exact hidx
        · exact h2 idx h
      · simp only [List.length_cons]
        omega
      · intro hne
        simp only [List.length_cons]
        rw [h4 hne]

/-- With more fuel than iterations, the zeroing loop run on its own test ends as the
counted loop does; it uses one index in `[0,59]` per iteration, exactly `n` of them. -/
theorem zero_loop_guarded_spec :
    ∀ (n fuel s : Nat) (array : Slots) (used : List Int), n < fuel →
      ∃ idxs, zero_loop_guarded ((s : Int) + (n : Int)) fuel (s : Int) array used
          = some (zero_loop n (s : Int) array, used ++ idxs) ∧
        (∀ idx, idx ∈ idxs → 0 ≤ idx ∧ idx < 60) ∧
        idxs.length = n := by
  intro n
  induction n with
  | zero =>
    intro fuel s array used hf
    obtain ⟨f, rfl⟩ : ∃ f, fuel = f + 1 := ⟨fuel - 1, by omega⟩
    refine ⟨[], ?_, by simp, by simp⟩
    rw [zero_loop_guarded, if_neg (by omega), zero_loop, List.append_nil]
  | succ n ih =>
    intro fuel s array used hf
    obtain ⟨f, rfl⟩ : ∃ f, fuel = f + 1 := ⟨fuel - 1, by omega⟩
    have hidx : (0 : Int) ≤ c_rem (s : Int) TM_RATE_LIMIT_SLOTS ∧
        c_rem (s : Int) TM_RATE_LIMIT_SLOTS < 60 := by
      rw [c_rem_nat]
      omega
    rw [zero_loop_guarded, if_pos (by omega), zero_loop, write_nat]
    simp only
    have hs : ((s : Int) + 1) = ((s + 1 : Nat) : Int) := by push_cast; rfl
    have hhi : ((s : Int) + ((n + 1 : Nat) : Int)) = ((s + 1 : Nat) : Int) + (n : Int) := by
      push_cast; omega
    rw [hs, hhi]
    obtain ⟨idxs, h1, h2, h3⟩ := ih f (s + 1) (Function.update array (slot s) 0)
      (used ++ [c_rem (s : Int) TM_RATE_LIMIT_SLOTS]) (by omega)
    refine ⟨c_rem (s : Int) TM_RATE_LIMIT_SLOTS :: idxs, ?_, ?_, ?_⟩
    · rw [h1, List.append_assoc]
      rfl
    · intro idx hmem
      rcases List.mem_cons.mp hmem with h | h
      · rw [h]; exact hidx
      · exact h2 idx h
    · simp only [List.length_cons]
      omega

/-! # Properties of the specification, continued -/

/-- Statement of C11: for `W` in `[1,60]`, an `int64_t` limit `>= 0` and a fixed minute `m`
in `[0,59]`, after any number `n` of steps "if `rate_limit_check(m, limit, W, arr, 1)`
passes then `rate_limit_update(m, W, arr, 1)`" from the zeroed array, every step is
defined and the sum of the window slots `(m-W+1 .. m) mod 60` equals the number of
accepted records. -/
theorem fixed_minute_window_counts_accepted (m W n : Nat) (limit : Int) (hm : m < 60)
    (hW1 : 1 ≤ W) (hW : W ≤ 60) (hl0 : 0 ≤ limit) (hl1 : limit < 2 ^ 63) :
    ∃ s, limiter_run W limit 1 Limiter.initial (List.replicate n m) = some s ∧
      window_sum s.array ((60 + m - W + 1) % 60) W = s.accepted.length := by
  obtain ⟨s, h1, h2, _, _, _⟩ := fixed_minute_invariant m W limit hm hW1 hW hl0 hl1 n
    Limiter.initial (by funext j; simp [Limiter.initial, zeroed]) (by simpa [Limiter.initial] using hl0)
  refine ⟨s, h1, ?_⟩
  rw [h2]
  exact window_sum_single m W _ hm hW1 hW

/-- Witness for C11: five records at minute 46 with window 5 and limit 3; three are
accepted and the window sums to 3. -/
theorem fixed_minute_window_counts_accepted_witness :
    (∃ s, limiter_run 5 3 1 Limiter.initial (List.replicate 5 46) = some s ∧
      window_sum s.array ((60 + 46 - 5 + 1) % 60) 5 = s.accepted.length) ∧
    (limiter_run 5 3 1 Limiter.initial (List.replicate 5 46)).map
      (fun s => s.accepted.length) = some 3 :=
  ⟨fixed_minute_window_counts_accepted 46 5 5 3 (by decide) (by decide) (by decide)
    (by decide) (by decide), by decide⟩

/-- Statement of C12: from the transport result `res` and the HTTP status
`http_response` observed after `curl_easy_perform`, `post_record_http` returns `true` if
and only if `res` is zero and the status is 200 or 201. -/
theorem post_record_http_true_iff (res http_response : Int) :
    post_record_http res http_response = true
      ↔ res = 0 ∧ (http_response = 200 ∨ http_response = 201) := by
  unfold post_record_http
  by_cases hres : res = 0
  · subst hres
    by_cases h1 : http_response = 201
    · subst h1; simp
    · by_cases h2 : http_response = 200
      · subst h2; simp
      · simp [h1, h2]
  · simp [hres]

/-- Evaluation for C13: the structure holds `record_retention_enabled = false` before the
call, the configuration enables retention and the journal opens; after
`initialize_daemon` the field holds the configured `true`, but the callback is not armed.
With the field `true` beforehand and retention disabled in the configuration, the
callback is armed. -/
theorem initialize_daemon_reads_prior_retention_flag :
    sample_config.record_retention_enabled = true ∧
    sample_startup.open_journal = some ⟨false, none⟩ ∧
    (initialize_daemon blank_daemon sample_config sample_startup).map
        (fun d => (d.record_retention_enabled, callback_armed d)) = some (true, false) ∧
    (initialize_daemon { blank_daemon with record_retention_enabled := true }
        { sample_config with record_retention_enabled := false } sample_startup).map
        (fun d => (d.record_retention_enabled, callback_armed d)) = some (false, true) :=
  ⟨rfl, rfl, by decide, by decide⟩

/-- Evaluation for C14: slot 3 holds `SIZE_MAX`, so with increment 1 it does not satisfy
`arr[i] < SIZE_MAX - inc`; it lies in the window of minute 3 and length 5; the guard's
own sum wraps to 0, the guard does not fire, and `rate_limit_check` returns `true`. -/
theorem rate_limit_check_guard_misses_wrap :
    ¬ (full_array (slot 3) < SIZE_MAX - 1) ∧
    in_window 3 5 (slot 3) ∧
    size_add (full_array (slot 3)) 1 = 0 ∧
    rate_limit_check 3 10 5 full_array 1 = some true :=
  ⟨by decide, ⟨0, by decide, by decide⟩, by decide, by decide⟩

/-- Evaluation for C15: one increment is added at absolute minute 0 with window 5.  At
absolute minute 60 (slot 0 again) no increment lies in `(55, 60]`, yet the window of the
check sums to 1, and with limit 1 the check rejects a record that an empty window admits.
A second update at absolute minute 62 runs the zeroing loop and leaves slot 0 alone: the
window of a check at minute 62 then sums to 2, with one increment in `(57, 62]`. -/
theorem stale_slot_counted_after_an_hour :
    (rate_limit_update ((0 % 60 : Nat) : Int) 5 zeroed 1).map
        (fun a => window_sum a ((60 + 60 % 60 - 5 + 1) % 60) 5) = some 1 ∧
    (rate_limit_update ((0 % 60 : Nat) : Int) 5 zeroed 1).bind
        (fun a => rate_limit_check ((60 % 60 : Nat) : Int) 1 5 a 1) = some false ∧
    rate_limit_check ((60 % 60 : Nat) : Int) 1 5 zeroed 1 = some true ∧
    ((rate_limit_update ((0 % 60 : Nat) : Int) 5 zeroed 1).bind
        (fun a => rate_limit_update ((62 % 60 : Nat) : Int) 5 a 1)).map
        (fun a => window_sum a ((60 + 62 % 60 - 5 + 1) % 60) 5) = some 2 ∧
    (limiter_run 5 1 1 Limiter.initial [0, 60]).map (fun s => s.accepted) = some [0] :=
  ⟨by decide, by decide, by decide, by decide, by decide⟩

/-- Statement of C16: for `W` in `[1,60]`, an `int64_t` limit `>= 0` and an increment
`inc`, process the records of the pipeline at non-decreasing absolute minutes from the
zeroed array.  A record is accepted only if `rate_limit_check` passes, and an accepted
record is recorded by `rate_limit_update` at the same minute; a record whose check passes
may also go unrecorded (the other axis rejects it, or the post fails), as `goes` says
record by record.  With no `size_t` addition wrapping, every step is defined; for every
time `t` the increments accepted at minutes in `(t - W, t]` total at most the limit;
every minute less than `W` before the latest accepted record still has its accepted
increments in its slot (no update zeroed them); and the 60 slots sum to at most the
limit. -/
theorem limiter_sound (W : Nat) (limit : Int) (inc : Nat) (records : List (Nat × Bool))
    (hW1 : 1 ≤ W) (hW : W ≤ 60) (hl0 : 0 ≤ limit) (hl1 : limit < 2 ^ 63)
    (hsorted : (records.map Prod.fst).Pairwise (fun a b => a ≤ b))
    (hfit : no_overflow W limit inc Limiter.initial records = true) :
    ∃ s, gated_run W limit inc Limiter.initial records = some s ∧
      (∀ t, ((accepted_in_window s.accepted W t * inc : Nat) : Int) ≤ limit) ∧
      (∀ T, s.accepted.head? = some T → ∀ a, T < a + W →
        s.accepted.count a * inc ≤ s.array (slot a)) ∧
      ((∑ j : Fin 60, s.array j : Nat) : Int) ≤ limit := by
  lift limit to Nat using hl0
  obtain ⟨s, h1, h2, h4, h3⟩ := gated_run_invariant W limit inc hW1 hW
    (by exact_mod_cast hl1) records Limiter.initial hsorted
    (by intro a ha; simp [Limiter.initial] at ha)
    (by intro T hT; simp [Limiter.initial] at hT)
    (by intro t; simp [Limiter.initial, accepted_in_window])
    (by simp [Limiter.initial, zeroed])
    hfit
  exact ⟨s, h1, fun t => by exact_mod_cast h4 t, h2, by exact_mod_cast h3⟩

/-- Witness for C16: limit 3, window 5, increment 1, records at minutes 0, 0, 1, 3, 3,
4, 5, 7, 7 and 62; the second record at minute 0 and the record at minute 5 pass the
check and go unrecorded. -/
theorem limiter_sound_witness :
    (∃ s, gated_run 5 3 1 Limiter.initial
        [(0, true), (0, false), (1, true), (3, true), (3, true), (4, true), (5, false),
          (7, true), (7, true), (62, true)] = some s ∧
      (∀ t, ((accepted_in_window s.accepted 5 t * 1 : Nat) : Int) ≤ 3) ∧
      (∀ T, s.accepted.head? = some T → ∀ a, T < a + 5 →
        s.accepted.count a * 1 ≤ s.array (slot a)) ∧
      ((∑ j : Fin 60, s.array j : Nat) : Int) ≤ 3) ∧
    (gated_run 5 3 1 Limiter.initial
        [(0, true), (0, false), (1, true), (3, true), (3, true), (4, true), (5, false),
          (7, true), (7, true), (62, true)]).map (fun s => s.accepted)
      = some [62, 7, 7, 3, 1, 0] :=
  ⟨limiter_sound 5 3 1
      [(0, true), (0, false), (1, true), (3, true), (3, true), (4, true), (5, false),
        (7, true), (7, true), (62, true)]
      (by decide) (by decide) (by decide) (by decide) (by decide) (by decide),
    by decide⟩

/-- Statement of C17 as amended: for a current minute `m` in `[0,59]` and a window length
`W` in `[1,60]`, `window_start` lies in `[0,59]` and every array index used by
`rate_limit_check` and `rate_limit_update` lies in `[0,59]`: both functions are defined.
Run on their own tests, both loops terminate: the zeroing loop after exactly `60 - W`
iterations, the summation loop after at most `W` iterations, and after exactly `W`
unless the overflow guard leaves it early with `return false`. -/
theorem rate_limiter_index_safety (m W : Nat) (limit : Int) (arr : Slots) (inc : Nat)
    (fuel : Nat) (hm : m < 60) (hW1 : 1 ≤ W) (hW : W ≤ 60) (hfuel : 60 < fuel) :
    (0 ≤ window_start (m : Int) (W : Int) ∧ window_start (m : Int) (W : Int) < 60) ∧
    (∃ b, rate_limit_check (m : Int) limit (W : Int) arr inc = some b) ∧
    (∃ used, check_loop_guarded arr inc (window_start (m : Int) (W : Int) + (W : Int)) fuel
          (window_start (m : Int) (W : Int)) 0 []
        = some (check_loop arr inc (W : Int).toNat (window_start (m : Int) (W : Int)) 0, used) ∧
      (∀ idx, idx ∈ used → 0 ≤ idx ∧ idx < 60) ∧
      used.length ≤ W ∧
      (check_loop arr inc (W : Int).toNat (window_start (m : Int) (W : Int)) 0
          ≠ CheckLoop.guard_fired → used.length = W)) ∧
    (∃ arr1, rate_limit_update (m : Int) (W : Int) arr inc = some arr1) ∧
    (∃ used, zero_loop_guarded ((TM_RATE_LIMIT_SLOTS - (W : Int)) + (m : Int) + 1) fuel
          ((m : Int) + 1) (Function.update arr (slot m) (size_add (arr (slot m)) inc)) []
        = some (rate_limit_update (m : Int) (W : Int) arr inc, used) ∧
      (∀ idx, idx ∈ used → 0 ≤ idx ∧ idx < 60) ∧
      used.length = 60 - W) := by
  have hws := window_start_nat m W hm hW
  refine ⟨?_, ?_, ?_, ?_, ?_⟩
  · rw [hws]
    omega
  · exact rate_limit_check_defined (m : Int) (W : Int) limit arr inc (by omega) (by omega)
      (by omega) (by omega)
  · rw [hws, Int.toNat_ofNat]
    obtain ⟨idxs, h1, h2, h3, h4⟩ := check_loop_guarded_spec arr inc W fuel
      ((60 + m - W + 1) % 60) 0 [] (by omega)
    exact ⟨idxs, by rw [h1, List.nil_append], h2, h3, h4⟩
  · exact rate_limit_update_defined (m : Int) (W : Int) arr inc (by omega) (by omega)
  · have hupd : rate_limit_update (m : Int) (W : Int) arr inc
        = zero_loop (60 - W) (((m + 1 : Nat) : Int))
            (Function.update arr (slot m) (size_add (arr (slot m)) inc)) := by
      unfold rate_limit_update
      simp only
      rw [read_in_range arr m hm]
      simp only
      rw [write_in_range arr m hm]
      simp only
      have hb : (TM_RATE_LIMIT_SLOTS - (W : Int)).toNat = 60 - W := by
        unfold TM_RATE_LIMIT_SLOTS; omega
      have hs : ((m : Int) + 1) = ((m + 1 : Nat) : Int) := by push_cast; rfl
      rw [hb, hs]
    have hhi : (TM_RATE_LIMIT_SLOTS - (W : Int)) + (m : Int) + 1
        = ((m + 1 : Nat) : Int) + ((60 - W : Nat) : Int) := by
      unfold TM_RATE_LIMIT_SLOTS
      omega
    have hs : ((m : Int) + 1) = ((m + 1 : Nat) : Int) := by push_cast; rfl
    rw [hupd, hhi, hs]
    obtain ⟨idxs, h1, h2, h3⟩ := zero_loop_guarded_spec (60 - W) fuel (m + 1)
      (Function.update arr (slot m) (size_add (arr (slot m)) inc)) [] (by omega)
    exact ⟨idxs, by rw [h1, List.nil_append], h2, h3⟩

/-- Counterexample to C17 as stated: with `SIZE_MAX - 1` in slot 59, minute 3, window 5
and increment 1 the guard fires at the first slot of the window, and the summation loop
is left after 1 iteration, not 5. -/
theorem check_loop_early_return_counterexample :
    check_loop_guarded brim_array 1 (window_start 3 5 + 5) 61 (window_start 3 5) 0 []
      = some (CheckLoop.guard_fired, [59]) ∧
    rate_limit_check 3 10 5 brim_array 1 = some false ∧
    [(59 : Int)].length ≠ 5 :=
  ⟨by decide, by decide, by decide⟩

/-- Witness for C17 as amended: minute 3, window 5, increment 7 on the ramp array. -/
theorem rate_limiter_index_safety_witness :
    (0 ≤ window_start ((3 : Nat) : Int) ((5 : Nat) : Int) ∧
      window_start ((3 : Nat) : Int) ((5 : Nat) : Int) < 60) ∧
    (∃ b, rate_limit_check ((3 : Nat) : Int) 100 ((5 : Nat) : Int) ramp_array 7 = some b) :=
  ⟨(rate_limiter_index_safety 3 5 100 ramp_array 7 61 (by decide) (by decide) (by decide)
      (by decide)).1,
    (rate_limiter_index_safety 3 5 100 ramp_array 7 61 (by decide) (by decide) (by decide)
      (by decide)).2.1⟩

end TelemPost
